import Mathlib

/-!
# check-list: the `<embed>` playlist fixer

A shallow embedding of `checklist.go` (package `checklist`) and of the few
library calls it makes (`strings.Split`, `strings.Join`, `strings.HasPrefix`,
`strings.Replace`, `goquery` attribute access), followed by theorems about the
fixers.

Conventions of the embedding:

* a Go `string` is a list of characters (`Str`); every separator and prefix
  the program uses is ASCII, so splitting by character and splitting by byte
  agree;
* a run-time panic (index out of range) is the `Except.error` branch of
  `Except Panic`;
* a Go `(value, error)` result is an `Except Str value`, and a lone `error`
  result is an `Option Str` (`none` is `nil`);
* mutable state (the parsed document, the report slice behind the pointer) is
  passed in and returned explicitly.
-/

namespace Checklist

/-- A Go string. -/
abbrev Str := List Char

/-- A run-time panic of the Go program. -/
inductive Panic where
  | indexOutOfRange (index length : Nat)
  deriving DecidableEq, Repr

/-- Go index expression `xs[i]` on a slice of strings, with its bounds check. -/
def index (xs : List Str) (i : Nat) : Except Panic Str :=
  match xs.get? i with
  | some x => .ok x
  | none => .error (.indexOutOfRange i xs.length)

/-! ## The `strings` package (the calls the program makes) -/

namespace strings

/-- Go `strings.HasPrefix(s, prefix)`. -/
def HasPrefix (s pfx : Str) : Bool := pfx.isPrefixOf s

/-- Go `strings.Split(s, sep)` for a one-byte separator `sep` (every call in
the program passes one): the fields of `s` between the occurrences of `sep`;
always at least one field. -/
def Split : Str → Char → List Str
  | [], _ => [[]]
  | c :: cs, sep =>
    if c = sep then [] :: Split cs sep
    else
      match Split cs sep with
      | [] => [[c]]
      | p :: ps => (c :: p) :: ps

/-- Go `strings.Join(elems, sep)`. -/
def Join : List Str → Str → Str
  | [], _ => []
  | [a], _ => a
  | a :: b :: rest, sep => a ++ sep ++ Join (b :: rest) sep

/-- Go `strings.Replace(s, old, new, 1)`: the first occurrence of `old` in `s`
replaced by `new`; `s` itself when `old` does not occur. -/
def Replace1 : Str → Str → Str → Str
  | [], old, new => if old = [] then new else []
  | c :: cs, old, new =>
    if HasPrefix (c :: cs) old then new ++ (c :: cs).drop old.length
    else c :: Replace1 cs old new

end strings

/-! ## The parsed document (`goquery`) -/

/-- An attribute of an element (`html.Attribute`). -/
structure Attribute where
  Key : Str
  Val : Str
  deriving DecidableEq, Repr

/-- A node of the parsed tree (`html.Node`): whether it is an element, its
tag name and its attributes. -/
structure Node where
  isElement : Bool
  Data : Str
  Attr : List Attribute
  deriving DecidableEq, Repr

/-- A parsed document: its nodes in document order. The program only selects
nodes by tag name and reads and writes their attributes, so the tree shape is
left out. -/
abbrev Document := List Node

/-- A `goquery.Selection`: pointers to nodes of the document, here their
positions. -/
abbrev Selection := List Nat

/-- The positions, from `i` on, of the elements with tag `tag`. -/
def findFrom (tag : Str) : Nat → List Node → List Nat
  | _, [] => []
  | i, n :: ns =>
    if n.isElement && n.Data = tag then i :: findFrom tag (i + 1) ns
    else findFrom tag (i + 1) ns

/-- The call `doc.Find(tag)` with a tag-name selector: all elements with that
tag, in document order. -/
def Find (doc : Document) (tag : Str) : Selection := findFrom tag 0 doc

/-- The first attribute of a node with the given key (`getAttributeValue`). -/
def getAttributeValue (attrName : Str) : List Attribute → Str × Bool
  | [] => ([], false)
  | a :: as => if a.Key = attrName then (a.Val, true) else getAttributeValue attrName as

/-- The call `s.Attr(attrName)`: the attribute of the first node of the
selection; `("", false)` when the selection is empty or the attribute is
absent. -/
def Attr (s : Selection) (doc : Document) (attrName : Str) : Str × Bool :=
  match s with
  | [] => ([], false)
  | i :: _ =>
    match doc.get? i with
    | none => ([], false)
    | some n => getAttributeValue attrName n.Attr

/-- Setting an attribute in an attribute list: the first attribute with the
key gets the value, and a new attribute is appended when there is none. -/
def setAttributeValue (attrName val : Str) : List Attribute → List Attribute
  | [] => [⟨attrName, val⟩]
  | a :: as =>
    if a.Key = attrName then ⟨a.Key, val⟩ :: as
    else a :: setAttributeValue attrName val as

/-- The nodes from position `i` on, with the attribute set on those in the
selection. -/
def setAttrFrom (s : Selection) (attrName val : Str) : Nat → List Node → List Node
  | _, [] => []
  | i, n :: ns =>
    (if i ∈ s then { n with Attr := setAttributeValue attrName val n.Attr } else n)
      :: setAttrFrom s attrName val (i + 1) ns

/-- The call `s.SetAttr(attrName, val)`: sets the attribute on every node of
the selection. -/
def SetAttr (s : Selection) (doc : Document) (attrName val : Str) : Document :=
  setAttrFrom s attrName val 0 doc

/-! ## `checklist.go` -/

def httpProto : Str := "http://".toList
def httpsProto : Str := "https://".toList
def propPairSeparator : Char := '='
def themeName : Str := "white".toList
def embedWidth : Str := "500".toList

/-- The Go function `getEmbed`. -/
def getEmbed (doc : Document) : Except Str Selection :=
  let embedNode := Find doc "embed".toList
  match embedNode.length with
  | 0 => .error "Required <embed> element not found".toList
  | 1 => .ok embedNode
  | _ => .error "Found multiple <embed> elements".toList

/-- The Go function `fixPlaylistUrl`; returns the fixed url and the report. -/
def fixPlaylistUrl (url : Str) (report : List Str) : Str × List Str :=
  if strings.HasPrefix url httpProto then
    (strings.Replace1 url httpProto httpsProto,
      report ++ ["Malformed playlist URL - http:// used instead of https://".toList])
  else (url, report)

/-- One iteration of the `range` loop of `fixPlaylistProperties`: the value
stored in `fixedProps[i]` for the parameter `prop`, and the report. -/
def fixPlaylistProperty (prop : Str) (report : List Str) : Except Panic (Str × List Str) :=
  let propPair := strings.Split prop propPairSeparator
  match index propPair 0 with
  | .error p => .error p
  | .ok key =>
    if key = "theme".toList then
      match index propPair 1 with
      | .error p => .error p
      | .ok v =>
        if v ≠ themeName then
          .ok (strings.Join (propPair.set 1 themeName) [propPairSeparator],
            report ++ ["Invalid playlist theme ('theme' property) - should be white".toList])
        else .ok (prop, report)
    else if key = "w".toList then
      match index propPair 1 with
      | .error p => .error p
      | .ok v =>
        if v ≠ embedWidth then
          .ok (strings.Join (propPair.set 1 embedWidth) [propPairSeparator],
            report ++ ["Invalid width value ('w' property) - should be 500".toList])
        else .ok (prop, report)
    else if key = "withart".toList then
      match index propPair 1 with
      | .error p => .error p
      | .ok v =>
        if strings.HasPrefix v httpProto then
          .ok (strings.Replace1 prop httpProto httpsProto,
            report ++ ["Malformed cover art URL ('withart' property)- http:// used instead of https://".toList])
        else .ok (prop, report)
    else .ok (prop, report)

/-- The `range` loop of `fixPlaylistProperties` over `srcPropPairs`: the
slice `fixedProps` and the report. -/
def fixPlaylistPropertiesLoop : List Str → List Str → Except Panic (List Str × List Str)
  | [], report => .ok ([], report)
  | prop :: rest, report =>
    match fixPlaylistProperty prop report with
    | .error p => .error p
    | .ok (fixed, report) =>
      match fixPlaylistPropertiesLoop rest report with
      | .error p => .error p
      | .ok (fixedRest, report) => .ok (fixed :: fixedRest, report)

/-- The Go function `fixPlaylistProperties`. -/
def fixPlaylistProperties (rawProps : Str) (report : List Str) : Except Panic (Str × List Str) :=
  let srcPropPairs := strings.Split rawProps '&'
  match fixPlaylistPropertiesLoop srcPropPairs report with
  | .error p => .error p
  | .ok (fixedProps, report) => .ok (strings.Join fixedProps "&".toList, report)

/-- The Go function `fixSrcAttribute`: the returned error, the document and
the report after the call. -/
def fixSrcAttribute (embedNode : Selection) (doc : Document) (finalReport : List Str) :
    Except Panic (Option Str × Document × List Str) :=
  match Attr embedNode doc "src".toList with
  | (_, false) =>
    .ok (some "Required 'src' attribute of <embed> element not found".toList, doc, finalReport)
  | (srcAttr, true) =>
    let srcSplitted := strings.Split srcAttr '?'
    match index srcSplitted 0 with
    | .error p => .error p
    | .ok base =>
      let (fixedUrl, finalReport) := fixPlaylistUrl base finalReport
      match index srcSplitted 1 with
      | .error p => .error p
      | .ok query =>
        match fixPlaylistProperties query finalReport with
        | .error p => .error p
        | .ok (fixedProps, finalReport) =>
          let fixedSrc := fixedUrl ++ "?".toList ++ fixedProps
          .ok (none, SetAttr embedNode doc "src".toList fixedSrc, finalReport)

/-- The Go function `fixWidthAttribute`: the returned error, the document and
the report after the call. -/
def fixWidthAttribute (embedNode : Selection) (doc : Document) (report : List Str) :
    Option Str × Document × List Str :=
  match Attr embedNode doc "width".toList with
  | (_, false) =>
    (some "Required 'width' attribute of <embed> element not found".toList, doc, report)
  | (widthAttr, true) =>
    if widthAttr ≠ embedWidth then
      (none, SetAttr embedNode doc "width".toList embedWidth,
        report ++ ["Invalid width value - should be 500".toList])
    else (none, doc, report)

/-- What loading a path gives: `os.Open` fails, the parser fails, or a
parsed document. -/
inductive Loaded where
  | openError (err : Str)
  | parseError (err : Str)
  | document (doc : Document)

/-- The files the program sees: what each path loads to, whether `os.Create`
fails on a path, and the output files written so far (path and the document
state that was serialised). -/
structure FileSystem where
  load : Str → Loaded
  createError : Str → Option Str
  written : List (Str × Document)

/-- The Go function `parseFile`. -/
def parseFile (fs : FileSystem) (path : Str) : Except Str Document :=
  match fs.load path with
  | .openError err =>
    .error ("Unable to open file '".toList ++ path ++ "' (".toList ++ err ++ ")".toList)
  | .parseError err =>
    .error ("Invalid file '".toList ++ path ++ "', can't parse (".toList ++ err ++ ")".toList)
  | .document doc => .ok doc

/-- The Go function `writeDocumentToFile`: the file system after the call and
the returned error. Rendering the embed element does not fail. -/
def writeDocumentToFile (fs : FileSystem) (path : Str) (doc : Document) :
    FileSystem × Option Str :=
  match fs.createError path with
  | some err =>
    (fs, some ("Unable to create file '".toList ++ path ++ "' (".toList ++ err ++ ")".toList))
  | none => ({ fs with written := fs.written ++ [(path, doc)] }, none)

/-- The Go function `CheckFile`: the returned report (`none` is the nil
slice), the returned error, and the file system after the call. The errors
returned by the two fixers and by `writeDocumentToFile` are discarded, as in
the source. -/
def CheckFile (fs : FileSystem) (loadPath savePath : Str) :
    Except Panic (Option (List Str) × Option Str × FileSystem) :=
  match parseFile fs loadPath with
  | .error err => .ok (none, some err, fs)
  | .ok doc =>
    match getEmbed doc with
    | .error err => .ok (none, some err, fs)
    | .ok embed =>
      match fixSrcAttribute embed doc [] with
      | .error p => .error p
      | .ok (_, doc, report) =>
        let (_, doc, report) := fixWidthAttribute embed doc report
        let (fs, _) := writeDocumentToFile fs savePath doc
        .ok (some report, none, fs)

/-! ## The loop body as pure functions

The three results of one loop iteration, read off `fixPlaylistProperty`:
whether it panics, the parameter it stores and the entries it records. The
theorem `fixPlaylistProperty_eq` below shows that they describe it exactly. -/

/-- The keys the loop looks at. -/
def knownKey (key : Str) : Bool :=
  key = "theme".toList || key = "w".toList || key = "withart".toList

/-- The loop body indexes `propPair[1]` out of range: the key is a known one
and the parameter has no `=`. -/
def propPanics (prop : Str) : Bool :=
  match strings.Split prop propPairSeparator with
  | [key] => knownKey key
  | _ => false

/-- The second field after the fix, for a key and the second field before. -/
def fixedValue (key v : Str) : Str :=
  if key = "theme".toList then themeName
  else if key = "w".toList then embedWidth
  else if key = "withart".toList then
    (if strings.HasPrefix v httpProto then httpsProto ++ v.drop httpProto.length else v)
  else v

/-- The parameter the loop body stores for `prop`: the second `=`-separated
field fixed, the other fields kept. -/
def propFixed (prop : Str) : Str :=
  match strings.Split prop propPairSeparator with
  | key :: v :: rest => strings.Join (key :: fixedValue key v :: rest) [propPairSeparator]
  | _ => prop

/-- The entries recorded for a key and the second field. -/
def valueEntries (key v : Str) : List Str :=
  if key = "theme".toList then
    (if v ≠ themeName then
      ["Invalid playlist theme ('theme' property) - should be white".toList] else [])
  else if key = "w".toList then
    (if v ≠ embedWidth then ["Invalid width value ('w' property) - should be 500".toList]
      else [])
  else if key = "withart".toList then
    (if strings.HasPrefix v httpProto then
      ["Malformed cover art URL ('withart' property)- http:// used instead of https://".toList]
      else [])
  else []

/-- The entries the loop body records for `prop`. -/
def propEntries (prop : Str) : List Str :=
  match strings.Split prop propPairSeparator with
  | key :: v :: _ => valueEntries key v
  | _ => []

/-- The entries `fixPlaylistUrl` records for a base URL. -/
def urlEntries (url : Str) : List Str :=
  if strings.HasPrefix url httpProto then
    ["Malformed playlist URL - http:// used instead of https://".toList]
  else []

/-- The query string `fixSrcAttribute` hands to `fixPlaylistProperties`, the
second `?`-separated field of `src`: the text between its first `?` and the
next one, which is all the text after the `?` when there is just one. -/
def queryField (src : Str) : Str := (strings.Split src '?').getD 1 []

/-- The value `fixSrcAttribute` writes to `src`. -/
def fixedSrc (src : Str) : Str :=
  (fixPlaylistUrl ((strings.Split src '?').getD 0 []) []).1 ++ "?".toList ++
    strings.Join ((strings.Split (queryField src) '&').map propFixed) "&".toList

/-! ## Words of the specification -/

/-- The text of `s` before its first `c` (all of `s` when there is none). -/
def before (c : Char) (s : Str) : Str := s.takeWhile (· ≠ c)

/-- The text of `s` after its first `c` (empty when there is none). -/
def after (c : Char) (s : Str) : Str := (s.dropWhile (· ≠ c)).drop 1

/-- A URL with a leading `http://` rewritten to `https://`. -/
def secureScheme (url : Str) : Str :=
  if "http://".toList.isPrefixOf url then "https://".toList ++ url.drop 7 else url

/-- The canonical form of one `key=value` parameter: `theme=white`, `w=500`,
`withart=` with the scheme of its value secured, any other parameter as is. -/
def canonicalParam (p : Str) : Str :=
  if before '=' p = "theme".toList then "theme=white".toList
  else if before '=' p = "w".toList then "w=500".toList
  else if before '=' p = "withart".toList then "withart=".toList ++ secureScheme (after '=' p)
  else p

/-- The canonical form of a `base?query` value of `src`. -/
def canonicalSrc (src : Str) : Str :=
  secureScheme (before '?' src) ++ "?".toList ++
    "&".toList.intercalate (((after '?' src).splitOn '&').map canonicalParam)

/-- The number of `<embed>` elements of a document. -/
def embedCount (doc : Document) : Nat :=
  doc.countP (fun n => n.isElement && n.Data = "embed".toList)

/-- The components of a `src` value: the base URL (the text before the first
`?`), then the `&`-separated parameters of the query string (all the text
after the first `?`). -/
def components (src : Str) : List Str :=
  before '?' src :: (after '?' src).splitOn '&'

/-! ## Sample inputs -/

/-- A document whose only node is an `<embed>` element with the given
attributes. -/
def embedOnly (attrs : List Attribute) : Document := [⟨true, "embed".toList, attrs⟩]

/-- The `src` value of the specification's example. -/
def sampleSrc : Str := "http://example.com?theme=black&w=300&withart=http://x.test/a.png".toList

/-- The fixed `src` value of the specification's example. -/
def sampleFixedSrc : Str :=
  "https://example.com?theme=white&w=500&withart=https://x.test/a.png".toList

/-- Files in which every path loads to the document `doc`, every path can
be created and nothing has been written yet. -/
def sampleFiles (doc : Document) : FileSystem :=
  ⟨fun _ => .document doc, fun _ => none, []⟩

/-- Files as in `sampleFiles`, except that no path can be created:
`os.Create` fails with `permission denied`. -/
def readOnlyFiles (doc : Document) : FileSystem :=
  ⟨fun _ => .document doc, fun _ => some "permission denied".toList, []⟩

/-! ## Facts about the string functions -/

namespace strings

theorem Split_ne_nil (s : Str) (c : Char) : Split s c ≠ [] := by
  cases s with
  | nil => simp [Split]
  | cons a t =>
    unfold Split
    split
    · simp
    · split <;> simp

/-- The embedded `Split` is the library's `List.splitOn`. -/
theorem Split_eq_splitOn (s : Str) (c : Char) : Split s c = s.splitOn c := by
  induction s with
  | nil => simp [Split, List.splitOn, List.splitOnP_nil]
  | cons a t ih =>
    unfold Split
    rw [List.splitOn, List.splitOnP_cons, ← List.splitOn, ← ih]
    by_cases h : a = c
    · simp [h]
    · simp only [h, if_false, beq_iff_eq]
      cases hs : Split t c with
      | nil => exact absurd hs (Split_ne_nil t c)
      | cons p ps => simp [List.modifyHead]

/-- The embedded `Join` is the library's `List.intercalate`. -/
theorem Join_eq_intercalate (ps : List Str) (sep : Str) : Join ps sep = sep.intercalate ps := by
  induction ps with
  | nil => simp [Join, List.intercalate]
  | cons a t ih =>
    cases t with
    | nil => simp [Join, List.intercalate]
    | cons b r =>
      rw [Join, ih]
      simp [List.intercalate, List.intersperse]

theorem Split_of_not_mem {s : Str} {c : Char} (h : c ∉ s) : Split s c = [s] := by
  induction s with
  | nil => simp [Split]
  | cons a t ih =>
    have h1 : a ≠ c := fun e => h (by simp [e])
    have h2 : c ∉ t := fun e => h (by simp [e])
    simp [Split, h1, ih h2]

theorem Split_append_sep {a : Str} {c : Char} (h : c ∉ a) (b : Str) :
    Split (a ++ c :: b) c = a :: Split b c := by
  induction a with
  | nil => simp [Split]
  | cons x t ih =>
    have h1 : x ≠ c := fun e => h (by simp [e])
    have h2 : c ∉ t := fun e => h (by simp [e])
    simp [Split, h1, ih h2]

theorem Join_cons_cons (a b : Str) (r : List Str) (sep : Str) :
    Join (a :: b :: r) sep = a ++ sep ++ Join (b :: r) sep := rfl

theorem Join_Split (s : Str) (c : Char) : Join (Split s c) [c] = s := by
  induction s with
  | nil => simp [Split, Join]
  | cons a t ih =>
    unfold Split
    by_cases h : a = c
    · simp only [h, if_true]
      cases hs : Split t c with
      | nil => exact absurd hs (Split_ne_nil t c)
      | cons p ps => rw [Join_cons_cons, ← hs, ih]; simp
    · simp only [h, if_false]
      cases hs : Split t c with
      | nil => exact absurd hs (Split_ne_nil t c)
      | cons p ps =>
        rw [hs] at ih
        cases ps with
        | nil => simp only [Join] at ih ⊢; rw [ih]
        | cons q qs =>
          rw [Join_cons_cons] at ih ⊢
          rw [← ih]; simp

theorem Split_Join {ps : List Str} {c : Char} (hne : ps ≠ []) (h : ∀ p ∈ ps, c ∉ p) :
    Split (Join ps [c]) c = ps := by
  induction ps with
  | nil => exact absurd rfl hne
  | cons a t ih =>
    cases t with
    | nil => simpa [Join] using Split_of_not_mem (h a (by simp))
    | cons b r =>
      rw [Join_cons_cons, List.append_assoc, List.singleton_append,
        Split_append_sep (h a (by simp)), ih (by simp) (fun p hp => h p (by simp [hp]))]

theorem not_mem_of_mem_Split {s : Str} {c d : Char} {p : Str} (hp : p ∈ Split s c)
    (hd : d = c ∨ d ∉ s) : d ∉ p := by
  induction s generalizing p with
  | nil =>
    simp only [Split, List.mem_singleton] at hp
    subst hp; simp
  | cons a t ih =>
    have hd2 : d = c ∨ d ∉ t := by
      rcases hd with h | h
      · exact Or.inl h
      · exact Or.inr (fun e => h (by simp [e]))
    unfold Split at hp
    by_cases h : a = c
    · simp only [h, if_true, List.mem_cons] at hp
      rcases hp with hp | hp
      · subst hp; simp
      · exact ih hp hd2
    · simp only [h, if_false] at hp
      cases hs : Split t c with
      | nil => exact absurd hs (Split_ne_nil t c)
      | cons q qs =>
        rw [hs] at hp ih
        have hda : d ≠ a := by
          rcases hd with e | e
          · exact fun e2 => h (by rw [← e2, e])
          · exact fun e2 => e (by simp [e2])
        simp only [List.mem_cons] at hp
        rcases hp with hp | hp
        · subst hp
          have := ih (p := q) (by simp) hd2
          simp [hda, this]
        · exact ih (by simp [hp]) hd2

theorem length_Split (s : Str) (c : Char) : (Split s c).length = s.count c + 1 := by
  induction s with
  | nil => simp [Split]
  | cons a t ih =>
    unfold Split
    by_cases h : a = c
    · simp [h, ih]
    · have h2 : (a == c) = false := by simpa using h
      simp only [h, if_false]
      cases hs : Split t c with
      | nil => exact absurd hs (Split_ne_nil t c)
      | cons q qs =>
        rw [hs] at ih
        rw [List.count_cons, h2]
        simpa using ih

end strings

/-! ## Splitting at the first separator -/

theorem eq_before_after {s : Str} {c : Char} (h : c ∈ s) :
    s = before c s ++ c :: after c s := by
  induction s with
  | nil => simp at h
  | cons a t ih =>
    by_cases hac : a = c
    · subst hac; simp [before, after]
    · have ht : c ∈ t := by
        rcases List.mem_cons.mp h with e | e
        · exact absurd e.symm hac
        · exact e
      have := ih ht
      simp only [before, after] at this ⊢
      simp only [List.takeWhile, List.dropWhile, ne_eq, hac, not_false_eq_true, decide_True,
        List.cons_append]
      rw [← this]

theorem not_mem_before (s : Str) (c : Char) : c ∉ before c s := by
  intro h
  have := List.mem_takeWhile_imp h
  simp at this

theorem before_of_not_mem {s : Str} {c : Char} (h : c ∉ s) : before c s = s := by
  unfold before
  rw [List.takeWhile_eq_self_iff]
  intro x hx
  simp only [ne_eq, decide_eq_true_eq]
  intro e; subst e; exact h hx

theorem before_append_sep {a : Str} {c : Char} (h : c ∉ a) (b : Str) :
    before c (a ++ c :: b) = a := by
  induction a with
  | nil => simp [before]
  | cons x t ih =>
    have h1 : x ≠ c := fun e => h (by simp [e])
    have h2 : c ∉ t := fun e => h (by simp [e])
    have := ih h2
    simp only [before, ne_eq, decide_not] at this ⊢
    simp [List.takeWhile, h1, this]

theorem after_append_sep {a : Str} {c : Char} (h : c ∉ a) (b : Str) :
    after c (a ++ c :: b) = b := by
  induction a with
  | nil => simp [after]
  | cons x t ih =>
    have h1 : x ≠ c := fun e => h (by simp [e])
    have h2 : c ∉ t := fun e => h (by simp [e])
    have := ih h2
    simp only [after, ne_eq, decide_not] at this ⊢
    simp [List.dropWhile, h1, this]

namespace strings

theorem Split_eq_before_cons (s : Str) (c : Char) :
    Split s c = before c s :: (if c ∈ s then Split (after c s) c else []) := by
  by_cases h : c ∈ s
  · rw [if_pos h]
    conv_lhs => rw [eq_before_after h]
    exact Split_append_sep (not_mem_before s c) _
  · rw [if_neg h, Split_of_not_mem h, before_of_not_mem h]

theorem Split_of_count_one {s : Str} {c : Char} (h : s.count c = 1) :
    Split s c = [before c s, after c s] := by
  have hm : c ∈ s := List.count_pos_iff.mp (by omega)
  have hdec := eq_before_after hm
  have hc : (before c s ++ c :: after c s).count c = 1 := by rw [← hdec]; exact h
  rw [List.count_append, List.count_cons_self,
    List.count_eq_zero_of_not_mem (not_mem_before s c)] at hc
  have hna : c ∉ after c s := by
    intro hmem
    have := List.count_pos_iff.mpr hmem
    omega
  rw [Split_eq_before_cons, if_pos hm, Split_of_not_mem hna]

end strings

/-! ## The loop body -/

namespace strings

theorem Replace1_of_prefix {s old : Str} (new : Str) (h : HasPrefix s old = true) :
    Replace1 s old new = new ++ s.drop old.length := by
  cases s with
  | nil =>
    have : old = [] := by
      cases old with
      | nil => rfl
      | cons a t => simp [HasPrefix, List.isPrefixOf] at h
    simp [Replace1, this]
  | cons a t => simp [Replace1, h]

theorem eq_append_drop_of_prefix {s pfx : Str} (h : HasPrefix s pfx = true) :
    s = pfx ++ s.drop pfx.length := by
  obtain ⟨t, rfl⟩ := List.isPrefixOf_iff_prefix.mp h
  simp

theorem Join_append_head (a b : Str) (rest : List Str) (sep : Str) :
    Join ((a ++ b) :: rest) sep = a ++ Join (b :: rest) sep := by
  cases rest with
  | nil => simp [Join]
  | cons r rs => simp [Join_cons_cons]

theorem Join_head_injective {key a b : Str} {rest : List Str} {sep : Str}
    (h : Join (key :: a :: rest) sep = Join (key :: b :: rest) sep) : a = b := by
  rw [Join_cons_cons, Join_cons_cons] at h
  have h2 := List.append_cancel_left h
  cases rest with
  | nil => simpa [Join] using h2
  | cons r rs =>
    rw [Join_cons_cons, Join_cons_cons] at h2
    exact List.append_cancel_right (List.append_cancel_right h2)

/-- Replacing the first `http://` of a `withart` parameter whose second field
starts with it rewrites that field. -/
theorem Replace1_withart {prop v : Str} {rest : List Str}
    (hs : Split prop '=' = "withart".toList :: v :: rest)
    (hv : HasPrefix v httpProto = true) :
    Replace1 prop httpProto httpsProto
      = Join ("withart".toList :: (httpsProto ++ v.drop httpProto.length) :: rest) ['='] := by
  have hp : prop = Join ("withart".toList :: v :: rest) ['='] := by
    rw [← hs, Join_Split]
  have hv2 := eq_append_drop_of_prefix hv
  generalize v.drop httpProto.length = t at hv2 ⊢
  subst hv2
  rw [hp, Join_cons_cons, Join_cons_cons, Join_append_head, Join_append_head]
  generalize Join (t :: rest) ['='] = x
  simp [Replace1, HasPrefix, httpProto, httpsProto, List.isPrefixOf]

end strings

theorem index_zero_cons (a : Str) (l : List Str) : index (a :: l) 0 = .ok a := rfl

theorem index_one_cons (a b : Str) (l : List Str) : index (a :: b :: l) 1 = .ok b := rfl

theorem index_one_singleton (a : Str) : index [a] 1 = .error (.indexOutOfRange 1 1) := rfl

/-- The loop body is described exactly by `propPanics`, `propFixed` and
`propEntries`. -/
theorem fixPlaylistProperty_eq (prop : Str) (report : List Str) :
    fixPlaylistProperty prop report =
      if propPanics prop then .error (.indexOutOfRange 1 1)
      else .ok (propFixed prop, report ++ propEntries prop) := by
  have hj := strings.Join_Split prop '='
  unfold fixPlaylistProperty propPanics propFixed propEntries
  simp only [propPairSeparator]
  cases hs : strings.Split prop '=' with
  | nil => exact absurd hs (strings.Split_ne_nil _ _)
  | cons key rest =>
    cases rest with
    | nil =>
      simp only [index_zero_cons, index_one_singleton, knownKey]
      by_cases h1 : key = "theme".toList
      · simp [h1]
      · by_cases h2 : key = "w".toList
        · simp [h2]
        · by_cases h3 : key = "withart".toList
          · simp [h3]
          · simp only [h1, h2, h3, if_false, Bool.or_self, decide_False, Bool.false_eq_true,
              List.append_nil]
    | cons v more =>
      rw [hs] at hj
      simp only [index_zero_cons, index_one_cons, fixedValue, valueEntries]
      by_cases h1 : key = "theme".toList
      · by_cases hv : v = themeName
        · subst hv; simp [h1, ← hj]
        · simp [h1, hv]
      · by_cases h2 : key = "w".toList
        · have h21 : ¬ "w".toList = "theme".toList := by decide
          by_cases hv : v = embedWidth
          · subst hv; simp [h2, h21, ← hj]
          · simp [h2, h21, hv]
        · by_cases h3 : key = "withart".toList
          · have h31 : ¬ "withart".toList = "theme".toList := by decide
            have h32 : ¬ "withart".toList = "w".toList := by decide
            subst h3
            by_cases hv : strings.HasPrefix v httpProto = true
            · simp only [h31, h32, hv, if_true, if_false]
              rw [strings.Replace1_withart hs hv]
              simp
            · simp only [h31, h32, hv, if_true, if_false]
              simp [← hj]
          · simp only [h1, h2, h3, if_false, List.append_nil, hj, Bool.false_eq_true]

/-- The loop is described exactly by the three pure functions. -/
theorem fixPlaylistPropertiesLoop_eq (props : List Str) (report : List Str) :
    fixPlaylistPropertiesLoop props report =
      if props.any propPanics then .error (.indexOutOfRange 1 1)
      else .ok (props.map propFixed, report ++ props.flatMap propEntries) := by
  induction props generalizing report with
  | nil => simp [fixPlaylistPropertiesLoop]
  | cons p ps ih =>
    rw [fixPlaylistPropertiesLoop, fixPlaylistProperty_eq]
    by_cases hp : propPanics p = true
    · simp [hp]
    · simp only [hp, if_false, Bool.false_eq_true]
      rw [ih]
      by_cases hps : ps.any propPanics = true
      · simp [hps]
      · simp [hps, hp]

theorem fixPlaylistProperties_eq (rawProps : Str) (report : List Str) :
    fixPlaylistProperties rawProps report =
      if (strings.Split rawProps '&').any propPanics then .error (.indexOutOfRange 1 1)
      else .ok (strings.Join ((strings.Split rawProps '&').map propFixed) "&".toList,
        report ++ (strings.Split rawProps '&').flatMap propEntries) := by
  rw [fixPlaylistProperties]
  simp only [fixPlaylistPropertiesLoop_eq]
  split_ifs <;> rfl

/-! ## Attributes -/

theorem getAttributeValue_set_same (k v : Str) (as : List Attribute) :
    getAttributeValue k (setAttributeValue k v as) = (v, true) := by
  induction as with
  | nil => simp [setAttributeValue, getAttributeValue]
  | cons a t ih =>
    by_cases h : a.Key = k
    · simp [setAttributeValue, getAttributeValue, h]
    · simp [setAttributeValue, getAttributeValue, h, ih]

theorem getAttributeValue_set_other {k k2 : Str} (h : k2 ≠ k) (v : Str) (as : List Attribute) :
    getAttributeValue k2 (setAttributeValue k v as) = getAttributeValue k2 as := by
  induction as with
  | nil => simp [setAttributeValue, getAttributeValue, h.symm]
  | cons a t ih =>
    by_cases h1 : a.Key = k
    · have h2 : a.Key ≠ k2 := fun e => h (by rw [← e, h1])
      simp [setAttributeValue, getAttributeValue, h1, h2, h.symm]
    · by_cases h2 : a.Key = k2
      · subst h2
        simp [setAttributeValue, getAttributeValue, h1]
      · simp [setAttributeValue, getAttributeValue, h1, h2, ih]

theorem setAttributeValue_idem (k v : Str) (as : List Attribute) :
    setAttributeValue k v (setAttributeValue k v as) = setAttributeValue k v as := by
  induction as with
  | nil => simp [setAttributeValue]
  | cons a t ih =>
    by_cases h : a.Key = k
    · simp [setAttributeValue, h]
    · simp [setAttributeValue, h, ih]

theorem setAttrFrom_getElem? (s : Selection) (k v : Str) (j : Nat) (ns : List Node) (m : Nat) :
    (setAttrFrom s k v j ns)[m]? =
      (ns[m]?).map
        (fun n => if j + m ∈ s then { n with Attr := setAttributeValue k v n.Attr } else n) := by
  induction ns generalizing j m with
  | nil => simp [setAttrFrom]
  | cons n t ih =>
    cases m with
    | zero => simp [setAttrFrom]
    | succ m =>
      simp only [setAttrFrom, List.getElem?_cons_succ, ih]
      have : j + 1 + m = j + (m + 1) := by omega
      rw [this]

theorem setAttrFrom_idem (s : Selection) (k v : Str) (j : Nat) (ns : List Node) :
    setAttrFrom s k v j (setAttrFrom s k v j ns) = setAttrFrom s k v j ns := by
  induction ns generalizing j with
  | nil => simp [setAttrFrom]
  | cons n t ih =>
    simp only [setAttrFrom, ih]
    by_cases h : j ∈ s
    · simp [h, setAttributeValue_idem]
    · simp [h]

theorem SetAttr_idem (s : Selection) (doc : Document) (k v : Str) :
    SetAttr s (SetAttr s doc k v) k v = SetAttr s doc k v :=
  setAttrFrom_idem s k v 0 doc

/-- After `SetAttr` the attribute reads back as the value set, when the
selection has a first node. -/
theorem Attr_SetAttr_same {s : Selection} {doc : Document} {k : Str}
    (h : (Attr s doc k).2 = true) (v : Str) : Attr s (SetAttr s doc k v) k = (v, true) := by
  cases s with
  | nil => simp [Attr] at h
  | cons i r =>
    simp only [Attr, SetAttr, List.get?_eq_getElem?, setAttrFrom_getElem?] at h ⊢
    cases hg : doc[i]? with
    | none => simp [hg] at h
    | some n => simp [getAttributeValue_set_same]

theorem Attr_SetAttr_other {k k2 : Str} (hk : k2 ≠ k) (s : Selection) (doc : Document)
    (v : Str) : Attr s (SetAttr s doc k v) k2 = Attr s doc k2 := by
  cases s with
  | nil => simp [Attr]
  | cons i r =>
    simp only [Attr, SetAttr, List.get?_eq_getElem?, setAttrFrom_getElem?]
    cases hg : doc[i]? with
    | none => simp
    | some n =>
      by_cases hi : i ∈ i :: r
      · simp [getAttributeValue_set_other hk]
      · simp at hi

/-! ## `fixPlaylistUrl` and `fixSrcAttribute` -/

theorem fixPlaylistUrl_eq (url : Str) (report : List Str) :
    fixPlaylistUrl url report = (secureScheme url, report ++ urlEntries url) := by
  unfold fixPlaylistUrl secureScheme urlEntries
  by_cases h : strings.HasPrefix url httpProto = true
  · rw [if_pos h, if_pos h, strings.Replace1_of_prefix _ h]
    have h2 : "http://".toList.isPrefixOf url = true := h
    rw [if_pos h2]
    rfl
  · rw [if_neg h, if_neg h]
    have h2 : ¬ "http://".toList.isPrefixOf url = true := h
    rw [if_neg h2]
    simp

/-- The function `fixSrcAttribute` on a `src` value with at least two
`?`-separated fields. -/
theorem fixSrcAttribute_of_split {embedNode : Selection} {doc : Document} {src base query : Str}
    {rest : List Str} (report : List Str)
    (hattr : Attr embedNode doc "src".toList = (src, true))
    (hs : strings.Split src '?' = base :: query :: rest) :
    fixSrcAttribute embedNode doc report =
      if (strings.Split query '&').any propPanics then .error (.indexOutOfRange 1 1)
      else .ok (none,
        SetAttr embedNode doc "src".toList
          (secureScheme base ++ "?".toList ++
            strings.Join ((strings.Split query '&').map propFixed) "&".toList),
        report ++ urlEntries base ++ (strings.Split query '&').flatMap propEntries) := by
  unfold fixSrcAttribute
  rw [hattr]
  simp only [hs, index_zero_cons, index_one_cons, fixPlaylistUrl_eq, fixPlaylistProperties_eq]
  split_ifs <;> simp

/-- The function `fixSrcAttribute` on a `src` value without `?`. -/
theorem fixSrcAttribute_of_no_query {embedNode : Selection} {doc : Document} {src : Str}
    (report : List Str) (hattr : Attr embedNode doc "src".toList = (src, true))
    (hs : '?' ∉ src) :
    fixSrcAttribute embedNode doc report = .error (.indexOutOfRange 1 1) := by
  unfold fixSrcAttribute
  rw [hattr]
  simp only [strings.Split_of_not_mem hs, index_zero_cons, index_one_singleton]

theorem fixSrcAttribute_of_no_attr {embedNode : Selection} {doc : Document}
    (report : List Str) (hattr : (Attr embedNode doc "src".toList).2 = false) :
    fixSrcAttribute embedNode doc report =
      .ok (some "Required 'src' attribute of <embed> element not found".toList, doc, report) := by
  unfold fixSrcAttribute
  cases h : Attr embedNode doc "src".toList with
  | mk v b =>
    rw [h] at hattr
    simp only at hattr
    subst hattr
    rfl

/-! ## The fixed parameter against the canonical parameter -/

theorem fixedValue_withart (v : Str) : fixedValue "withart".toList v = secureScheme v := by
  have h1 : ¬ "withart".toList = "theme".toList := by decide
  have h2 : ¬ "withart".toList = "w".toList := by decide
  unfold fixedValue secureScheme
  rw [if_neg h1, if_neg h2, if_pos rfl]
  rfl

theorem propFixed_of_count_one {p : Str} (h : p.count '=' = 1) :
    propFixed p = canonicalParam p := by
  have hs := strings.Split_of_count_one h
  have hm : '=' ∈ p := List.count_pos_iff.mp (by omega)
  have hp := eq_before_after hm
  unfold propFixed canonicalParam
  simp only [propPairSeparator, hs]
  generalize before '=' p = key at hp ⊢
  generalize after '=' p = v at hp ⊢
  by_cases h1 : key = "theme".toList
  · subst h1
    rw [if_pos rfl]
    rfl
  · by_cases h2 : key = "w".toList
    · subst h2
      rw [if_neg h1, if_pos rfl]
      rfl
    · by_cases h3 : key = "withart".toList
      · subst h3
        rw [if_neg h1, if_neg h2, if_pos rfl, fixedValue_withart]
        rfl
      · have hf : fixedValue key v = v := by
          unfold fixedValue
          rw [if_neg h1, if_neg h2, if_neg h3]
        rw [if_neg h1, if_neg h2, if_neg h3, hp, hf]
        simp [strings.Join]

/-- Claim C1. For a `src` value `base?query` with exactly one `?` whose
`&`-separated parameters each contain exactly one `=`, `fixSrcAttribute`
succeeds and sets `src` to the canonical value: the base with a leading
`http://` rewritten to `https://`, then `?`, then the parameters rejoined with
`&`, where `theme` parameters are `theme=white`, `w` parameters are `w=500`,
`withart` parameters have the leading `http://` of their value rewritten and
every other parameter is copied as is. -/
theorem fixSrcAttribute_sets_canonical_src (embedNode : Selection) (doc : Document)
    (report : List Str) (src : Str)
    (hattr : Attr embedNode doc "src".toList = (src, true))
    (hquery : src.count '?' = 1)
    (hparams : ∀ p ∈ (after '?' src).splitOn '&', p.count '=' = 1) :
    ∃ report2,
      fixSrcAttribute embedNode doc report =
        .ok (none, SetAttr embedNode doc "src".toList (canonicalSrc src), report2) ∧
      Attr embedNode (SetAttr embedNode doc "src".toList (canonicalSrc src)) "src".toList
        = (canonicalSrc src, true) := by
  have hs := strings.Split_of_count_one hquery
  rw [← strings.Split_eq_splitOn] at hparams
  have hnp : (strings.Split (after '?' src) '&').any propPanics = false := by
    rw [List.any_eq_false]
    intro p hp
    have h1 := strings.Split_of_count_one (hparams p hp)
    simp [propPanics, propPairSeparator, h1]
  have hmap : (strings.Split (after '?' src) '&').map propFixed
      = (strings.Split (after '?' src) '&').map canonicalParam :=
    List.map_congr_left (fun p hp => propFixed_of_count_one (hparams p hp))
  refine ⟨report ++ urlEntries (before '?' src) ++
    (strings.Split (after '?' src) '&').flatMap propEntries, ?_,
    Attr_SetAttr_same (by rw [hattr]) _⟩
  rw [fixSrcAttribute_of_split report hattr hs, hnp, hmap, strings.Join_eq_intercalate,
    strings.Split_eq_splitOn]
  rfl

/-- Claim C1, example. The specification's example: the `src` value
`http://example.com?theme=black&w=300&withart=http://x.test/a.png` becomes
`https://example.com?theme=white&w=500&withart=https://x.test/a.png`. -/
theorem fixSrcAttribute_sets_canonical_src_example :
    sampleSrc.count '?' = 1 ∧
    (∀ p ∈ (after '?' sampleSrc).splitOn '&', p.count '=' = 1) ∧
    canonicalSrc sampleSrc = sampleFixedSrc ∧
    ∃ report2,
      fixSrcAttribute [0] (embedOnly [⟨"src".toList, sampleSrc⟩]) [] =
        .ok (none, SetAttr [0] (embedOnly [⟨"src".toList, sampleSrc⟩]) "src".toList
          (canonicalSrc sampleSrc), report2) ∧
      Attr [0] (SetAttr [0] (embedOnly [⟨"src".toList, sampleSrc⟩]) "src".toList
        (canonicalSrc sampleSrc)) "src".toList = (canonicalSrc sampleSrc, true) :=
  ⟨by decide, by decide, by decide,
    fixSrcAttribute_sets_canonical_src [0] (embedOnly [⟨"src".toList, sampleSrc⟩]) [] sampleSrc
      (by rfl) (by decide) (by decide)⟩

/-! ## The fields of a fixed parameter -/

namespace strings

theorem mem_Join {c : Char} {ps : List Str} {sep : Str} (h : c ∈ Join ps sep) :
    c ∈ sep ∨ ∃ p ∈ ps, c ∈ p := by
  induction ps with
  | nil => simp [Join] at h
  | cons a t ih =>
    cases t with
    | nil => exact Or.inr ⟨a, by simp, by simpa [Join] using h⟩
    | cons b r =>
      rw [Join_cons_cons, List.mem_append, List.mem_append] at h
      rcases h with (h | h) | h
      · exact Or.inr ⟨a, by simp, h⟩
      · exact Or.inl h
      · rcases ih h with h2 | ⟨q, hq, hc⟩
        · exact Or.inl h2
        · exact Or.inr ⟨q, List.mem_cons_of_mem _ hq, hc⟩

end strings

theorem mem_fixedValue {c : Char} {key v : Str} (h : c ∈ fixedValue key v) :
    c ∈ v ∨ c ∈ "white500https://".toList := by
  unfold fixedValue at h
  split_ifs at h with h1 h2 h3 h4
  · right; revert h; simp only [themeName]; simp; tauto
  · right; revert h; simp only [embedWidth]; simp; tauto
  · rw [List.mem_append] at h
    rcases h with h | h
    · right; revert h; simp only [httpsProto]; simp; tauto
    · exact Or.inl (List.mem_of_mem_drop h)
  · exact Or.inl h
  · exact Or.inl h

theorem Split_propFixed {p key v : Str} {rest : List Str}
    (hs : strings.Split p '=' = key :: v :: rest) :
    strings.Split (propFixed p) '=' = key :: fixedValue key v :: rest := by
  have hf : ∀ q ∈ key :: v :: rest, '=' ∉ q := fun q hq =>
    strings.not_mem_of_mem_Split (hs ▸ hq) (Or.inl rfl)
  unfold propFixed
  simp only [propPairSeparator, hs]
  apply strings.Split_Join (by simp)
  intro q hq
  simp only [List.mem_cons] at hq
  rcases hq with hq | hq | hq
  · exact hq ▸ hf key (by simp)
  · subst hq
    intro hc
    rcases mem_fixedValue hc with h | h
    · exact hf v (by simp) h
    · revert h; decide
  · exact hf q (by simp [hq])

theorem propFixed_of_fields {p key v : Str} {rest : List Str}
    (hs : strings.Split p '=' = key :: v :: rest) :
    propFixed p = strings.Join (key :: fixedValue key v :: rest) ['='] := by
  unfold propFixed
  simp only [propPairSeparator, hs]

theorem propFixed_of_single {p key : Str} (hs : strings.Split p '=' = [key]) :
    propFixed p = p := by
  unfold propFixed
  simp only [propPairSeparator, hs]

/-- A character that is not in a parameter and not in the canonical values is
not in the fixed parameter. -/
theorem not_mem_propFixed {c : Char} {p : Str} (hc : c ∉ p)
    (hconst : c ∉ "=white500https://".toList) : c ∉ propFixed p := by
  cases hs : strings.Split p '=' with
  | nil => exact absurd hs (strings.Split_ne_nil _ _)
  | cons key r =>
    cases r with
    | nil => rw [propFixed_of_single hs]; exact hc
    | cons v rest =>
      have hf : ∀ q ∈ key :: v :: rest, c ∉ q := fun q hq =>
        strings.not_mem_of_mem_Split (hs ▸ hq) (Or.inr hc)
      rw [propFixed_of_fields hs]
      intro hmem
      rcases strings.mem_Join hmem with h | ⟨q, hq, hcq⟩
      · apply hconst
        simp only [List.mem_singleton] at h
        subst h
        decide
      · simp only [List.mem_cons] at hq
        rcases hq with hq | hq | hq
        · exact hf key (by simp) (hq ▸ hcq)
        · subst hq
          rcases mem_fixedValue hcq with h | h
          · exact hf v (by simp) h
          · apply hconst
            revert h
            simp
            tauto
        · exact hf q (by simp [hq]) hcq

theorem not_hasPrefix_https (t : Str) : strings.HasPrefix (httpsProto ++ t) httpProto = false := by
  simp [strings.HasPrefix, httpsProto, httpProto, List.isPrefixOf]

theorem key_cases (key : Str) :
    key = "theme".toList ∨ key = "w".toList ∨ key = "withart".toList ∨
      (key ≠ "theme".toList ∧ key ≠ "w".toList ∧ key ≠ "withart".toList) := by
  by_cases h1 : key = "theme".toList
  · exact Or.inl h1
  · by_cases h2 : key = "w".toList
    · exact Or.inr (Or.inl h2)
    · by_cases h3 : key = "withart".toList
      · exact Or.inr (Or.inr (Or.inl h3))
      · exact Or.inr (Or.inr (Or.inr ⟨h1, h2, h3⟩))

theorem fixedValue_theme (v : Str) : fixedValue "theme".toList v = themeName := by
  unfold fixedValue
  rw [if_pos rfl]

theorem fixedValue_w (v : Str) : fixedValue "w".toList v = embedWidth := by
  have h1 : ¬ "w".toList = "theme".toList := by decide
  unfold fixedValue
  rw [if_neg h1, if_pos rfl]

theorem fixedValue_withart_eq (v : Str) :
    fixedValue "withart".toList v =
      if strings.HasPrefix v httpProto then httpsProto ++ v.drop httpProto.length else v := by
  have h1 : ¬ "withart".toList = "theme".toList := by decide
  have h2 : ¬ "withart".toList = "w".toList := by decide
  unfold fixedValue
  rw [if_neg h1, if_neg h2, if_pos rfl]

theorem fixedValue_other {key : Str} (h1 : key ≠ "theme".toList) (h2 : key ≠ "w".toList)
    (h3 : key ≠ "withart".toList) (v : Str) : fixedValue key v = v := by
  unfold fixedValue
  rw [if_neg h1, if_neg h2, if_neg h3]

theorem valueEntries_theme (v : Str) :
    valueEntries "theme".toList v =
      if v ≠ themeName then
        ["Invalid playlist theme ('theme' property) - should be white".toList] else [] := by
  unfold valueEntries
  rw [if_pos rfl]

theorem valueEntries_w (v : Str) :
    valueEntries "w".toList v =
      if v ≠ embedWidth then ["Invalid width value ('w' property) - should be 500".toList]
      else [] := by
  have h1 : ¬ "w".toList = "theme".toList := by decide
  unfold valueEntries
  rw [if_neg h1, if_pos rfl]

theorem valueEntries_withart (v : Str) :
    valueEntries "withart".toList v =
      if strings.HasPrefix v httpProto then
        ["Malformed cover art URL ('withart' property)- http:// used instead of https://".toList]
      else [] := by
  have h1 : ¬ "withart".toList = "theme".toList := by decide
  have h2 : ¬ "withart".toList = "w".toList := by decide
  unfold valueEntries
  rw [if_neg h1, if_neg h2, if_pos rfl]

theorem valueEntries_other {key : Str} (h1 : key ≠ "theme".toList) (h2 : key ≠ "w".toList)
    (h3 : key ≠ "withart".toList) (v : Str) : valueEntries key v = [] := by
  unfold valueEntries
  rw [if_neg h1, if_neg h2, if_neg h3]

theorem fixedValue_idem (key v : Str) : fixedValue key (fixedValue key v) = fixedValue key v := by
  rcases key_cases key with h | h | h | ⟨h1, h2, h3⟩
  · subst h; simp only [fixedValue_theme]
  · subst h; simp only [fixedValue_w]
  · subst h
    simp only [fixedValue_withart_eq]
    by_cases hv : strings.HasPrefix v httpProto = true
    · simp only [hv, if_true, not_hasPrefix_https, Bool.false_eq_true, if_false]
    · rw [Bool.not_eq_true] at hv
      simp only [hv, Bool.false_eq_true, if_false]
  · simp only [fixedValue_other h1 h2 h3]

/-- No entry is recorded for a fixed value. -/
theorem valueEntries_fixedValue (key v : Str) : valueEntries key (fixedValue key v) = [] := by
  rcases key_cases key with h | h | h | ⟨h1, h2, h3⟩
  · subst h; rw [fixedValue_theme, valueEntries_theme]; simp
  · subst h; rw [fixedValue_w, valueEntries_w]; simp
  · subst h
    simp only [fixedValue_withart_eq, valueEntries_withart]
    by_cases hv : strings.HasPrefix v httpProto = true
    · simp only [hv, if_true, not_hasPrefix_https, Bool.false_eq_true, if_false]
    · rw [Bool.not_eq_true] at hv
      simp only [hv, Bool.false_eq_true, if_false]
  · exact valueEntries_other h1 h2 h3 _

/-- An entry is recorded exactly when the fix changes the value, and then
just one. -/
theorem valueEntries_length (key v : Str) :
    (valueEntries key v).length = if fixedValue key v = v then 0 else 1 := by
  rcases key_cases key with h | h | h | ⟨h1, h2, h3⟩
  · subst h
    rw [fixedValue_theme, valueEntries_theme]
    by_cases hv : v = themeName
    · simp [hv]
    · have : ¬ themeName = v := fun e => hv e.symm
      simp [hv, this]
  · subst h
    rw [fixedValue_w, valueEntries_w]
    by_cases hv : v = embedWidth
    · simp [hv]
    · have : ¬ embedWidth = v := fun e => hv e.symm
      simp [hv, this]
  · subst h
    rw [fixedValue_withart_eq, valueEntries_withart]
    by_cases hv : strings.HasPrefix v httpProto = true
    · have hne : ¬ httpsProto ++ v.drop httpProto.length = v := by
        intro e
        have h2 := not_hasPrefix_https (v.drop httpProto.length)
        rw [e, hv] at h2
        exact absurd h2 (by simp)
      simp only [hv, if_true, hne, if_false, List.length_singleton]
    · simp only [hv, if_false, if_true, List.length_nil, Bool.false_eq_true]
  · rw [fixedValue_other h1 h2 h3, valueEntries_other h1 h2 h3]
    simp

theorem propFixed_idem (p : Str) : propFixed (propFixed p) = propFixed p := by
  cases hs : strings.Split p '=' with
  | nil => exact absurd hs (strings.Split_ne_nil _ _)
  | cons key r =>
    cases r with
    | nil => rw [propFixed_of_single hs, propFixed_of_single hs]
    | cons v rest =>
      rw [propFixed_of_fields (Split_propFixed hs), fixedValue_idem, propFixed_of_fields hs]

theorem propEntries_propFixed (p : Str) : propEntries (propFixed p) = [] := by
  cases hs : strings.Split p '=' with
  | nil => exact absurd hs (strings.Split_ne_nil _ _)
  | cons key r =>
    cases r with
    | nil =>
      rw [propFixed_of_single hs]
      unfold propEntries
      simp only [propPairSeparator, hs]
    | cons v rest =>
      unfold propEntries
      simp only [propPairSeparator, Split_propFixed hs, valueEntries_fixedValue]

/-- The loop body records an entry exactly when it changes the parameter, and
then just one. -/
theorem propEntries_length (p : Str) :
    (propEntries p).length = if propFixed p = p then 0 else 1 := by
  cases hs : strings.Split p '=' with
  | nil => exact absurd hs (strings.Split_ne_nil _ _)
  | cons key r =>
    cases r with
    | nil =>
      rw [propFixed_of_single hs]
      unfold propEntries
      simp [propPairSeparator, hs]
    | cons v rest =>
      have hp : p = strings.Join (key :: v :: rest) ['='] := by
        rw [← hs, strings.Join_Split]
      have hiff : propFixed p = p ↔ fixedValue key v = v := by
        rw [propFixed_of_fields hs]
        constructor
        · intro h
          rw [hp] at h
          exact strings.Join_head_injective h
        · intro h
          rw [h, ← hp]
      unfold propEntries
      simp only [propPairSeparator, hs, valueEntries_length, hiff]

theorem propPanics_propFixed (p : Str) : propPanics (propFixed p) = propPanics p := by
  cases hs : strings.Split p '=' with
  | nil => exact absurd hs (strings.Split_ne_nil _ _)
  | cons key r =>
    cases r with
    | nil => rw [propFixed_of_single hs]
    | cons v rest =>
      unfold propPanics
      simp only [propPairSeparator, Split_propFixed hs, hs]

/-! ## `fixSrcAttribute` when it returns -/

theorem secureScheme_idem (url : Str) : secureScheme (secureScheme url) = secureScheme url := by
  unfold secureScheme
  by_cases h : "http://".toList.isPrefixOf url = true
  · have h2 : "http://".toList.isPrefixOf ("https://".toList ++ url.drop 7) = false :=
      not_hasPrefix_https _
    simp only [h, if_true, h2, Bool.false_eq_true, if_false]
  · rw [Bool.not_eq_true] at h
    simp only [h, Bool.false_eq_true, if_false]

theorem urlEntries_secureScheme (url : Str) : urlEntries (secureScheme url) = [] := by
  unfold secureScheme urlEntries
  by_cases h : "http://".toList.isPrefixOf url = true
  · have h2 : strings.HasPrefix ("https://".toList ++ url.drop 7) httpProto = false :=
      not_hasPrefix_https _
    simp only [h, if_true, h2, Bool.false_eq_true, if_false]
  · rw [Bool.not_eq_true] at h
    have h2 : strings.HasPrefix url httpProto = false := h
    simp only [h, Bool.false_eq_true, if_false, h2]

theorem urlEntries_length (url : Str) :
    (urlEntries url).length = if secureScheme url = url then 0 else 1 := by
  unfold secureScheme urlEntries
  by_cases h : "http://".toList.isPrefixOf url = true
  · have h2 : strings.HasPrefix url httpProto = true := h
    have hne : ¬ "https://".toList ++ url.drop 7 = url := by
      intro e
      have h3 : strings.HasPrefix ("https://".toList ++ url.drop 7) httpProto = false :=
        not_hasPrefix_https (url.drop 7)
      have h4 : strings.HasPrefix ("https://".toList ++ url.drop 7) httpProto = true := by
        rw [e]; exact h2
      rw [h4] at h3
      exact absurd h3 (by simp)
    simp only [h, h2, if_true, hne, if_false, List.length_singleton]
  · rw [Bool.not_eq_true] at h
    have h2 : strings.HasPrefix url httpProto = false := h
    simp only [h, h2, Bool.false_eq_true, if_false, if_true, List.length_nil]

theorem not_mem_secureScheme {c : Char} {url : Str} (hc : c ∉ url)
    (hconst : c ∉ "https://".toList) : c ∉ secureScheme url := by
  unfold secureScheme
  split_ifs
  · rw [List.mem_append]
    rintro (h | h)
    · exact hconst h
    · exact hc (List.mem_of_mem_drop h)
  · exact hc

namespace strings

theorem Split_two {s : Str} {c : Char} (h : c ∈ s) :
    ∃ rest, Split s c = before c s :: before c (after c s) :: rest := by
  rw [Split_eq_before_cons s c, if_pos h, Split_eq_before_cons (after c s) c]
  exact ⟨_, rfl⟩

end strings

theorem queryField_eq {src : Str} (h : '?' ∈ src) :
    queryField src = before '?' (after '?' src) := by
  obtain ⟨rest, hs⟩ := strings.Split_two h
  simp [queryField, hs]

theorem queryField_of_count_one {src : Str} (h : src.count '?' = 1) :
    queryField src = after '?' src := by
  simp [queryField, strings.Split_of_count_one h]

theorem fixedSrc_eq (src : Str) :
    fixedSrc src = secureScheme (before '?' src) ++ "?".toList ++
      strings.Join ((strings.Split (queryField src) '&').map propFixed) "&".toList := by
  unfold fixedSrc
  rw [fixPlaylistUrl_eq, strings.Split_eq_before_cons]
  rfl

/-- What a returning call of `fixSrcAttribute` on an element with a `src`
attribute has done. -/
theorem fixSrcAttribute_ok_inv {embedNode : Selection} {doc doc2 : Document} {src : Str}
    {report report2 : List Str} {err : Option Str}
    (hattr : Attr embedNode doc "src".toList = (src, true))
    (hok : fixSrcAttribute embedNode doc report = .ok (err, doc2, report2)) :
    '?' ∈ src ∧ (strings.Split (queryField src) '&').any propPanics = false ∧ err = none ∧
      doc2 = SetAttr embedNode doc "src".toList (fixedSrc src) ∧
      report2 = report ++ urlEntries (before '?' src) ++
        (strings.Split (queryField src) '&').flatMap propEntries := by
  by_cases hq : '?' ∈ src
  · obtain ⟨rest, hs⟩ := strings.Split_two hq
    rw [fixSrcAttribute_of_split report hattr hs, ← queryField_eq hq] at hok
    by_cases hp : (strings.Split (queryField src) '&').any propPanics = true
    · rw [if_pos hp] at hok
      exact absurd hok (by simp)
    · rw [if_neg hp] at hok
      rw [Bool.not_eq_true] at hp
      simp only [Except.ok.injEq, Prod.mk.injEq] at hok
      obtain ⟨h1, h2, h3⟩ := hok
      exact ⟨hq, hp, h1.symm, by rw [← h2, fixedSrc_eq], h3.symm⟩
  · rw [fixSrcAttribute_of_no_query report hattr hq] at hok
    exact absurd hok (by simp)

/-- A returning call of `fixSrcAttribute` with a nil error found a `src`
attribute. -/
theorem fixSrcAttribute_ok_attr {embedNode : Selection} {doc doc2 : Document}
    {report report2 : List Str}
    (hok : fixSrcAttribute embedNode doc report = .ok (none, doc2, report2)) :
    ∃ src, Attr embedNode doc "src".toList = (src, true) := by
  cases h : Attr embedNode doc "src".toList with
  | mk v b =>
    cases b with
    | true => exact ⟨v, rfl⟩
    | false =>
      rw [fixSrcAttribute_of_no_attr report (by rw [h])] at hok
      exact absurd hok (by simp)

/-- The fields of a fixed `src` value. -/
theorem Split_fixedSrc {src : Str} (hq : '?' ∈ src) :
    strings.Split (fixedSrc src) '?' =
      [secureScheme (before '?' src),
        strings.Join ((strings.Split (queryField src) '&').map propFixed) "&".toList] ∧
    strings.Split
        (strings.Join ((strings.Split (queryField src) '&').map propFixed) "&".toList) '&'
      = (strings.Split (queryField src) '&').map propFixed := by
  have hb : '?' ∉ secureScheme (before '?' src) :=
    not_mem_secureScheme (not_mem_before _ _) (by decide)
  have hqf : '?' ∉ queryField src := by
    rw [queryField_eq hq]; exact not_mem_before _ _
  have hpq : ∀ q ∈ (strings.Split (queryField src) '&').map propFixed, '?' ∉ q ∧ '&' ∉ q := by
    intro q hmem
    obtain ⟨p, hp, rfl⟩ := List.mem_map.mp hmem
    exact ⟨not_mem_propFixed (strings.not_mem_of_mem_Split hp (Or.inr hqf)) (by decide),
      not_mem_propFixed (strings.not_mem_of_mem_Split hp (Or.inl rfl)) (by decide)⟩
  have hj : '?' ∉ strings.Join ((strings.Split (queryField src) '&').map propFixed) "&".toList := by
    intro hmem
    rcases strings.mem_Join hmem with h | ⟨q, hq2, hc⟩
    · revert h; decide
    · exact (hpq q hq2).1 hc
  constructor
  · rw [fixedSrc_eq]
    have : "?".toList = ['?'] := rfl
    rw [this, List.append_assoc, List.singleton_append, strings.Split_append_sep hb,
      strings.Split_of_not_mem hj]
  · have : "&".toList = ['&'] := rfl
    rw [this]
    exact strings.Split_Join (by simpa using strings.Split_ne_nil _ _) (fun q hq2 => (hpq q hq2).2)

/-- Claim C2. When `fixSrcAttribute` returns on an element with a `src`
attribute, the report afterwards is the report before, followed by the entry
for the base URL (if one is recorded), followed by the entries of the
parameters of the query string in their left-to-right order. The base URL is
the text before the first `?`; the query string is the field handed to
`fixPlaylistProperties`; `urlEntries` and `propEntries` are what is recorded
for one base URL or one parameter. -/
theorem fixSrcAttribute_report_order (embedNode : Selection) (doc doc2 : Document)
    (report report2 : List Str) (src : Str) (err : Option Str)
    (hattr : Attr embedNode doc "src".toList = (src, true))
    (hok : fixSrcAttribute embedNode doc report = .ok (err, doc2, report2)) :
    report2 = report ++ urlEntries (before '?' src) ++
      ((queryField src).splitOn '&').flatMap propEntries := by
  rw [← strings.Split_eq_splitOn]
  exact (fixSrcAttribute_ok_inv hattr hok).2.2.2.2

/-- Claim C2, example. On the specification's example, starting from an empty
report, the report is exactly the four messages, in the order URL, theme,
width parameter, cover art. -/
theorem fixSrcAttribute_report_order_example :
    fixSrcAttribute [0] (embedOnly [⟨"src".toList, sampleSrc⟩]) [] =
      .ok (none, embedOnly [⟨"src".toList, sampleFixedSrc⟩],
        ["Malformed playlist URL - http:// used instead of https://".toList,
          "Invalid playlist theme ('theme' property) - should be white".toList,
          "Invalid width value ('w' property) - should be 500".toList,
          "Malformed cover art URL ('withart' property)- http:// used instead of https://".toList]) ∧
    ["Malformed playlist URL - http:// used instead of https://".toList,
      "Invalid playlist theme ('theme' property) - should be white".toList,
      "Invalid width value ('w' property) - should be 500".toList,
      "Malformed cover art URL ('withart' property)- http:// used instead of https://".toList]
      = [] ++ urlEntries (before '?' sampleSrc) ++
        ((queryField sampleSrc).splitOn '&').flatMap propEntries :=
  ⟨by rfl,
    fixSrcAttribute_report_order [0] (embedOnly [⟨"src".toList, sampleSrc⟩]) _ [] _ sampleSrc none
      (by rfl) (by rfl)⟩

/-! ## `fixWidthAttribute` -/

theorem fixWidthAttribute_of_attr {embedNode : Selection} {doc : Document} {v : Str}
    (report : List Str) (hattr : Attr embedNode doc "width".toList = (v, true)) :
    fixWidthAttribute embedNode doc report =
      if v ≠ embedWidth then
        (none, SetAttr embedNode doc "width".toList embedWidth,
          report ++ ["Invalid width value - should be 500".toList])
      else (none, doc, report) := by
  unfold fixWidthAttribute
  rw [hattr]

theorem fixWidthAttribute_of_no_attr {embedNode : Selection} {doc : Document}
    (report : List Str) (hattr : (Attr embedNode doc "width".toList).2 = false) :
    fixWidthAttribute embedNode doc report =
      (some "Required 'width' attribute of <embed> element not found".toList, doc, report) := by
  unfold fixWidthAttribute
  cases h : Attr embedNode doc "width".toList with
  | mk v b =>
    rw [h] at hattr
    simp only at hattr
    subst hattr
    rfl

theorem fixWidthAttribute_ok_attr {embedNode : Selection} {doc doc2 : Document}
    {report report2 : List Str}
    (hok : fixWidthAttribute embedNode doc report = (none, doc2, report2)) :
    ∃ v, Attr embedNode doc "width".toList = (v, true) := by
  cases h : Attr embedNode doc "width".toList with
  | mk v b =>
    cases b with
    | true => exact ⟨v, rfl⟩
    | false =>
      rw [fixWidthAttribute_of_no_attr report (by rw [h])] at hok
      exact absurd hok (by simp)

/-! ## Idempotence -/

/-- Fixing a fixed `src` value changes nothing and records nothing. -/
theorem fixSrcAttribute_again {embedNode : Selection} {doc doc1 : Document}
    {report report1 : List Str}
    (hok : fixSrcAttribute embedNode doc report = .ok (none, doc1, report1)) :
    fixSrcAttribute embedNode doc1 report1 = .ok (none, doc1, report1) := by
  obtain ⟨src, hattr⟩ := fixSrcAttribute_ok_attr hok
  obtain ⟨hq, hnp, -, hdoc, -⟩ := fixSrcAttribute_ok_inv hattr hok
  obtain ⟨hs1, hs2⟩ := Split_fixedSrc hq
  have hattr1 : Attr embedNode doc1 "src".toList = (fixedSrc src, true) := by
    rw [hdoc]; exact Attr_SetAttr_same (by rw [hattr]) _
  rw [fixSrcAttribute_of_split report1 hattr1 hs1, hs2]
  have hany : ((strings.Split (queryField src) '&').map propFixed).any propPanics = false := by
    rw [List.any_eq_false] at hnp ⊢
    intro q hmem
    obtain ⟨p, hp, rfl⟩ := List.mem_map.mp hmem
    rw [propPanics_propFixed]
    exact hnp p hp
  have hmap : ((strings.Split (queryField src) '&').map propFixed).map propFixed
      = (strings.Split (queryField src) '&').map propFixed := by
    rw [List.map_map]
    exact List.map_congr_left (fun p _ => propFixed_idem p)
  have hent : ((strings.Split (queryField src) '&').map propFixed).flatMap propEntries = [] := by
    rw [List.flatMap_eq_nil_iff]
    intro q hmem
    obtain ⟨p, hp, rfl⟩ := List.mem_map.mp hmem
    exact propEntries_propFixed p
  rw [hany, hmap, hent, secureScheme_idem, urlEntries_secureScheme, ← fixedSrc_eq, hdoc,
    SetAttr_idem]
  simp

/-- Fixing a fixed `width` changes nothing and records nothing. -/
theorem fixWidthAttribute_again {embedNode : Selection} {doc doc1 : Document}
    {report report1 : List Str}
    (hok : fixWidthAttribute embedNode doc report = (none, doc1, report1)) :
    fixWidthAttribute embedNode doc1 report1 = (none, doc1, report1) ∧
      Attr embedNode doc1 "width".toList = (embedWidth, true) := by
  obtain ⟨v, hattr⟩ := fixWidthAttribute_ok_attr hok
  rw [fixWidthAttribute_of_attr report hattr] at hok
  by_cases hv : v = embedWidth
  · rw [if_neg (by simpa using hv)] at hok
    simp only [Prod.mk.injEq, true_and] at hok
    obtain ⟨h1, h2⟩ := hok
    subst h1 h2 hv
    refine ⟨?_, hattr⟩
    rw [fixWidthAttribute_of_attr report hattr, if_neg (by simp)]
  · rw [if_pos hv] at hok
    simp only [Prod.mk.injEq, true_and] at hok
    obtain ⟨h1, h2⟩ := hok
    have hattr1 : Attr embedNode doc1 "width".toList = (embedWidth, true) := by
      rw [← h1]; exact Attr_SetAttr_same (by rw [hattr]) _
    refine ⟨?_, hattr1⟩
    rw [fixWidthAttribute_of_attr report1 hattr1, if_neg (by simp)]

/-- Claim C3. Fixing is idempotent. When `fixSrcAttribute` succeeds, a second
call on the resulting document also succeeds, leaves the document (so the
`src` attribute) unchanged and appends nothing to the report. When
`fixWidthAttribute` succeeds, a second call leaves the document unchanged with
`width` at `500` and appends nothing. -/
theorem fixing_twice_changes_nothing (embedNode : Selection) (doc doc1 : Document)
    (report report1 : List Str) (widthNode : Selection) (docw docw1 : Document)
    (reportw reportw1 : List Str)
    (hsrc : fixSrcAttribute embedNode doc report = .ok (none, doc1, report1))
    (hwidth : fixWidthAttribute widthNode docw reportw = (none, docw1, reportw1)) :
    fixSrcAttribute embedNode doc1 report1 = .ok (none, doc1, report1) ∧
    fixWidthAttribute widthNode docw1 reportw1 = (none, docw1, reportw1) ∧
    Attr widthNode docw1 "width".toList = ("500".toList, true) :=
  ⟨fixSrcAttribute_again hsrc, fixWidthAttribute_again hwidth⟩

/-- Claim C3, example. The fixed example `src` and a fixed width of `500` stay
as they are under a second pass, with no new report entry. -/
theorem fixing_twice_changes_nothing_example :
    fixSrcAttribute [0] (embedOnly [⟨"src".toList, sampleFixedSrc⟩])
        ["Malformed playlist URL - http:// used instead of https://".toList,
          "Invalid playlist theme ('theme' property) - should be white".toList,
          "Invalid width value ('w' property) - should be 500".toList,
          "Malformed cover art URL ('withart' property)- http:// used instead of https://".toList]
      = .ok (none, embedOnly [⟨"src".toList, sampleFixedSrc⟩],
        ["Malformed playlist URL - http:// used instead of https://".toList,
          "Invalid playlist theme ('theme' property) - should be white".toList,
          "Invalid width value ('w' property) - should be 500".toList,
          "Malformed cover art URL ('withart' property)- http:// used instead of https://".toList]) ∧
    fixWidthAttribute [0] (embedOnly [⟨"width".toList, "500".toList⟩])
        ["Invalid width value - should be 500".toList]
      = (none, embedOnly [⟨"width".toList, "500".toList⟩],
        ["Invalid width value - should be 500".toList]) ∧
    Attr [0] (embedOnly [⟨"width".toList, "500".toList⟩]) "width".toList
      = ("500".toList, true) :=
  fixing_twice_changes_nothing [0] (embedOnly [⟨"src".toList, sampleSrc⟩]) _ [] _
    [0] (embedOnly [⟨"width".toList, "400".toList⟩]) _ [] _ (by rfl) (by rfl)

/-- Claim C4. On an element whose `width` attribute has the value `v`: when `v`
is not `500`, `fixWidthAttribute` sets `width` to `500` and appends exactly
the entry `Invalid width value - should be 500`; when `v` is `500`, the
document and the report are left as they are. -/
theorem fixWidthAttribute_sets_500 (embedNode : Selection) (doc : Document)
    (report : List Str) (v : Str)
    (hattr : Attr embedNode doc "width".toList = (v, true)) :
    (v ≠ "500".toList →
      fixWidthAttribute embedNode doc report =
        (none, SetAttr embedNode doc "width".toList "500".toList,
          report ++ ["Invalid width value - should be 500".toList]) ∧
      Attr embedNode (SetAttr embedNode doc "width".toList "500".toList) "width".toList
        = ("500".toList, true)) ∧
    (v = "500".toList → fixWidthAttribute embedNode doc report = (none, doc, report)) := by
  rw [fixWidthAttribute_of_attr report hattr]
  constructor
  · intro hv
    have hv2 : v ≠ embedWidth := hv
    rw [if_pos hv2]
    exact ⟨rfl, Attr_SetAttr_same (by rw [hattr]) _⟩
  · intro hv
    have hv2 : ¬ v ≠ embedWidth := by simpa using hv
    rw [if_neg hv2]

/-- Claim C4, example. A width of `400` becomes `500` with one entry, and a
width of `500` is left alone with no entry. -/
theorem fixWidthAttribute_sets_500_example :
    fixWidthAttribute [0] (embedOnly [⟨"width".toList, "400".toList⟩]) [] =
      (none, embedOnly [⟨"width".toList, "500".toList⟩],
        ["Invalid width value - should be 500".toList]) ∧
    fixWidthAttribute [0] (embedOnly [⟨"width".toList, "500".toList⟩]) [] =
      (none, embedOnly [⟨"width".toList, "500".toList⟩], []) :=
  ⟨((fixWidthAttribute_sets_500 [0] (embedOnly [⟨"width".toList, "400".toList⟩]) []
      "400".toList (by rfl)).1 (by decide)).1,
    (fixWidthAttribute_sets_500 [0] (embedOnly [⟨"width".toList, "500".toList⟩]) []
      "500".toList (by rfl)).2 rfl⟩

/-! ## `getEmbed` and `CheckFile` -/

theorem length_findFrom (tag : Str) (i : Nat) (ns : List Node) :
    (findFrom tag i ns).length = ns.countP (fun n => n.isElement && n.Data = tag) := by
  induction ns generalizing i with
  | nil => simp [findFrom]
  | cons n t ih =>
    unfold findFrom
    by_cases h : (n.isElement && decide (n.Data = tag)) = true
    · rw [if_pos h, List.length_cons, ih, List.countP_cons]
      simp only [h, if_true]
    · rw [if_neg h, ih, List.countP_cons]
      simp only [h, if_false, Nat.add_zero, Bool.false_eq_true]

theorem mem_findFrom {tag : Str} {i k : Nat} {ns : List Node} (h : k ∈ findFrom tag i ns) :
    ∃ m n, k = i + m ∧ ns[m]? = some n ∧ n.isElement = true ∧ n.Data = tag := by
  induction ns generalizing i with
  | nil => simp [findFrom] at h
  | cons a t ih =>
    unfold findFrom at h
    by_cases hc : (a.isElement && decide (a.Data = tag)) = true
    · rw [if_pos hc, List.mem_cons] at h
      rcases h with h | h
      · refine ⟨0, a, by simpa using h, by simp, ?_⟩
        simpa using hc
      · obtain ⟨m, n, h1, h2, h3⟩ := ih h
        exact ⟨m + 1, n, by omega, by simpa using h2, h3⟩
    · rw [if_neg hc] at h
      obtain ⟨m, n, h1, h2, h3⟩ := ih h
      exact ⟨m + 1, n, by omega, by simpa using h2, h3⟩

theorem length_Find_embed (doc : Document) :
    (Find doc "embed".toList).length = embedCount doc :=
  length_findFrom _ 0 doc

theorem getEmbed_eq (doc : Document) :
    getEmbed doc =
      if embedCount doc = 0 then .error "Required <embed> element not found".toList
      else if embedCount doc = 1 then .ok (Find doc "embed".toList)
      else .error "Found multiple <embed> elements".toList := by
  unfold getEmbed
  simp only []
  rw [← length_Find_embed]
  generalize Find doc "embed".toList = sel
  match sel with
  | [] => rfl
  | [_] => rfl
  | _ :: _ :: _ => simp

theorem CheckFile_of_getEmbed_error {fs : FileSystem} {loadPath : Str} {doc : Document}
    {err : Str} (savePath : Str) (hload : fs.load loadPath = .document doc)
    (herr : getEmbed doc = .error err) :
    CheckFile fs loadPath savePath = .ok (none, some err, fs) := by
  unfold CheckFile parseFile
  simp only [hload, herr]

/-- Claim C5. For a file that parses to `doc`: `getEmbed` returns a selection
exactly when `doc` has exactly one `<embed>` element, and the selection is
then that one element; with none it fails with
`Required <embed> element not found`, with two or more it fails with
`Found multiple <embed> elements`, and in both cases `CheckFile` returns that
error with a nil report and leaves the file system as it was, so no fixed
document is written. -/
theorem getEmbed_needs_exactly_one (fs : FileSystem) (loadPath savePath : Str)
    (doc : Document) (hload : fs.load loadPath = .document doc) :
    ((∃ sel, getEmbed doc = .ok sel) ↔ embedCount doc = 1) ∧
    (∀ sel, getEmbed doc = .ok sel →
      ∃ i n, sel = [i] ∧ doc[i]? = some n ∧ n.isElement = true ∧ n.Data = "embed".toList) ∧
    (embedCount doc = 0 →
      getEmbed doc = .error "Required <embed> element not found".toList ∧
      CheckFile fs loadPath savePath =
        .ok (none, some "Required <embed> element not found".toList, fs)) ∧
    (2 ≤ embedCount doc →
      getEmbed doc = .error "Found multiple <embed> elements".toList ∧
      CheckFile fs loadPath savePath =
        .ok (none, some "Found multiple <embed> elements".toList, fs)) := by
  have hg := getEmbed_eq doc
  refine ⟨?_, ?_, ?_, ?_⟩
  · constructor
    · rintro ⟨sel, hsel⟩
      rw [hsel] at hg
      by_contra hne
      by_cases h0 : embedCount doc = 0
      · rw [if_pos h0] at hg; exact absurd hg (by simp)
      · rw [if_neg h0, if_neg hne] at hg; exact absurd hg (by simp)
    · intro h1
      exact ⟨_, by rw [hg, if_neg (by omega), if_pos h1]⟩
  · intro sel hsel
    by_cases h0 : embedCount doc = 0
    · rw [hsel, if_pos h0] at hg; exact absurd hg (by simp)
    · by_cases h1 : embedCount doc = 1
      · rw [hsel, if_neg h0, if_pos h1] at hg
        simp only [Except.ok.injEq] at hg
        have hlen : sel.length = 1 := by rw [hg, length_Find_embed, h1]
        match sel, hlen with
        | [i], _ =>
          have hmem : i ∈ findFrom "embed".toList 0 doc := by
            have : Find doc "embed".toList = [i] := hg.symm
            unfold Find at this
            rw [this]; simp
          obtain ⟨m, n, h2, h3, h4⟩ := mem_findFrom hmem
          exact ⟨i, n, rfl, by simpa [h2] using h3, h4⟩
      · rw [hsel, if_neg h0, if_neg h1] at hg; exact absurd hg (by simp)
  · intro h0
    have : getEmbed doc = .error "Required <embed> element not found".toList := by
      rw [hg, if_pos h0]
    exact ⟨this, CheckFile_of_getEmbed_error savePath hload this⟩
  · intro h2
    have : getEmbed doc = .error "Found multiple <embed> elements".toList := by
      rw [hg, if_neg (by omega), if_neg (by omega)]
    exact ⟨this, CheckFile_of_getEmbed_error savePath hload this⟩

/-- Claim C5, example. A document without `<embed>` and one with two: the
error comes back with a nil report and nothing is written. -/
theorem getEmbed_needs_exactly_one_example :
    CheckFile (sampleFiles []) "in.html".toList "out.html".toList =
      .ok (none, some "Required <embed> element not found".toList, sampleFiles []) ∧
    CheckFile (sampleFiles (embedOnly [] ++ embedOnly [])) "in.html".toList "out.html".toList =
      .ok (none, some "Found multiple <embed> elements".toList,
        sampleFiles (embedOnly [] ++ embedOnly [])) :=
  ⟨((getEmbed_needs_exactly_one (sampleFiles []) "in.html".toList "out.html".toList []
      rfl).2.2.1 (by decide)).2,
    ((getEmbed_needs_exactly_one (sampleFiles (embedOnly [] ++ embedOnly [])) "in.html".toList
      "out.html".toList (embedOnly [] ++ embedOnly []) rfl).2.2.2 (by decide)).2⟩

/-- Claim C6. What `CheckFile` does on a document whose single `<embed>` has no
`src` attribute, and on one whose single `<embed>` has no `width` attribute:
the error of the fixer is dropped, a report comes back with a nil error, and
the output file is written. -/
theorem CheckFile_missing_attribute_not_fatal :
    CheckFile (sampleFiles (embedOnly [⟨"width".toList, "400".toList⟩]))
        "in.html".toList "out.html".toList =
      .ok (some ["Invalid width value - should be 500".toList], none,
        { sampleFiles (embedOnly [⟨"width".toList, "400".toList⟩]) with
          written := [("out.html".toList, embedOnly [⟨"width".toList, "500".toList⟩])] }) ∧
    CheckFile (sampleFiles (embedOnly [⟨"src".toList, "https://a.test?x=1".toList⟩]))
        "in.html".toList "out.html".toList =
      .ok (some [], none,
        { sampleFiles (embedOnly [⟨"src".toList, "https://a.test?x=1".toList⟩]) with
          written :=
            [("out.html".toList, embedOnly [⟨"src".toList, "https://a.test?x=1".toList⟩])] }) ∧
    fixSrcAttribute [0] (embedOnly [⟨"width".toList, "400".toList⟩]) [] =
      .ok (some "Required 'src' attribute of <embed> element not found".toList,
        embedOnly [⟨"width".toList, "400".toList⟩], []) ∧
    fixWidthAttribute [0] (embedOnly [⟨"src".toList, "https://a.test?x=1".toList⟩]) [] =
      (some "Required 'width' attribute of <embed> element not found".toList,
        embedOnly [⟨"src".toList, "https://a.test?x=1".toList⟩], []) :=
  ⟨rfl, rfl, rfl, rfl⟩

/-- Claim C7. What `fixSrcAttribute` does on `https://a.test?x=1?y=2`: `src`
becomes `https://a.test?x=1`, the text from the second `?` on is dropped, and
no entry is recorded. -/
theorem fixSrcAttribute_drops_after_second_question_mark :
    fixSrcAttribute [0] (embedOnly [⟨"src".toList, "https://a.test?x=1?y=2".toList⟩]) [] =
      .ok (none, embedOnly [⟨"src".toList, "https://a.test?x=1".toList⟩], []) ∧
    Attr [0] (embedOnly [⟨"src".toList, "https://a.test?x=1".toList⟩]) "src".toList
      ≠ ("https://a.test?x=1?y=2".toList, true) :=
  ⟨rfl, by decide⟩

/-! ## One parameter `key=V` -/

theorem propPanics_eq_false_of_mem {p : Str} (h : '=' ∈ p) : propPanics p = false := by
  obtain ⟨rest, hs⟩ := strings.Split_two h
  unfold propPanics
  simp only [propPairSeparator, hs]

/-- The function `fixPlaylistProperties` on a query string that is the one
parameter `key=V`: the text of `V` before its first `=` is fixed and the rest
of `V` is kept. -/
theorem fixPlaylistProperties_key_value (key V : Str) (report : List Str)
    (hkey : '=' ∉ key) (hamp : '&' ∉ key ++ '=' :: V) :
    fixPlaylistProperties (key ++ '=' :: V) report =
      .ok (key ++ '=' :: (fixedValue key (before '=' V) ++ V.drop (before '=' V).length),
        report ++ valueEntries key (before '=' V)) := by
  have hV : strings.Split V '=' = before '=' V ::
      (if '=' ∈ V then strings.Split (after '=' V) '=' else []) :=
    strings.Split_eq_before_cons V '='
  generalize (if '=' ∈ V then strings.Split (after '=' V) '=' else []) = rest at hV
  have hs : strings.Split (key ++ '=' :: V) '=' = key :: before '=' V :: rest := by
    rw [strings.Split_append_sep hkey, hV]
  have hjoin : V = before '=' V ++ strings.Join ([] :: rest) ['='] := by
    conv_lhs => rw [← strings.Join_Split V '=', hV]
    rw [← strings.Join_append_head, List.append_nil]
  have hdrop : V.drop (before '=' V).length = strings.Join ([] :: rest) ['='] := by
    generalize before '=' V = b at hjoin ⊢
    rw [hjoin, List.drop_left]
  rw [fixPlaylistProperties_eq, strings.Split_of_not_mem hamp]
  have hp : propPanics (key ++ '=' :: V) = false := propPanics_eq_false_of_mem (by simp)
  simp only [List.any_cons, List.any_nil, hp, Bool.or_false, Bool.false_eq_true, if_false,
    List.map_cons, List.map_nil, List.flatMap_cons, List.flatMap_nil, List.append_nil,
    strings.Join]
  rw [propFixed_of_fields hs, hdrop]
  have he : propEntries (key ++ '=' :: V) = valueEntries key (before '=' V) := by
    unfold propEntries
    simp only [propPairSeparator, hs]
  rw [he, strings.Join_cons_cons]
  conv_lhs => rw [← List.append_nil (fixedValue key (before '=' V)), strings.Join_append_head]
  simp

/-- Claim C8. What `fixPlaylistProperties` does on parameters whose value
contains `=`: the parameter `theme=white=x`, whose value
`white=x` differs from `white`, is left as it is with no entry, and
`theme=a=b` becomes `theme=white=b`, not `theme=white`; likewise `w=500=x` is
left as it is and `w=1=2` becomes `w=500=2`. -/
theorem fixPlaylistProperties_value_with_equals :
    fixPlaylistProperties "theme=white=x".toList [] = .ok ("theme=white=x".toList, []) ∧
    fixPlaylistProperties "theme=a=b".toList [] =
      .ok ("theme=white=b".toList,
        ["Invalid playlist theme ('theme' property) - should be white".toList]) ∧
    fixPlaylistProperties "w=500=x".toList [] = .ok ("w=500=x".toList, []) ∧
    fixPlaylistProperties "w=1=2".toList [] =
      .ok ("w=500=2".toList, ["Invalid width value ('w' property) - should be 500".toList]) ∧
    "white=x".toList ≠ "white".toList ∧ "theme=white=x".toList ≠ "theme=white".toList ∧
    "theme=white=b".toList ≠ "theme=white".toList :=
  ⟨rfl, rfl, rfl, rfl, by decide, by decide, by decide⟩

/-- The function `fixPlaylistProperties` on the one parameter `theme=V` or
`w=V`, in terms of `V1`, the text of `V` before its first `=` (all of `V`
when it has none): `V1` is what the loop compares with `white` or `500` and
replaces; when `V` has no `=` and differs from the canonical value, the result
is exactly `theme=white` or `w=500` with its entry. -/
theorem fixPlaylistProperties_theme_w_second_field (V : Str) (report : List Str)
    (hamp : '&' ∉ V) :
    (before '=' V ≠ "white".toList →
      fixPlaylistProperties ("theme=".toList ++ V) report =
        .ok ("theme=white".toList ++ V.drop (before '=' V).length,
          report ++ ["Invalid playlist theme ('theme' property) - should be white".toList])) ∧
    (before '=' V = "white".toList →
      fixPlaylistProperties ("theme=".toList ++ V) report =
        .ok ("theme=".toList ++ V, report)) ∧
    ('=' ∉ V → V ≠ "white".toList →
      fixPlaylistProperties ("theme=".toList ++ V) report =
        .ok ("theme=white".toList,
          report ++ ["Invalid playlist theme ('theme' property) - should be white".toList])) ∧
    (before '=' V ≠ "500".toList →
      fixPlaylistProperties ("w=".toList ++ V) report =
        .ok ("w=500".toList ++ V.drop (before '=' V).length,
          report ++ ["Invalid width value ('w' property) - should be 500".toList])) ∧
    (before '=' V = "500".toList →
      fixPlaylistProperties ("w=".toList ++ V) report = .ok ("w=".toList ++ V, report)) ∧
    ('=' ∉ V → V ≠ "500".toList →
      fixPlaylistProperties ("w=".toList ++ V) report =
        .ok ("w=500".toList,
          report ++ ["Invalid width value ('w' property) - should be 500".toList])) := by
  have ht := fixPlaylistProperties_key_value "theme".toList V report (by decide)
    (by simp only [List.mem_append, List.mem_cons]; rintro (h | h | h)
        · revert h; decide
        · revert h; decide
        · exact hamp h)
  have hw := fixPlaylistProperties_key_value "w".toList V report (by decide)
    (by simp only [List.mem_append, List.mem_cons]; rintro (h | h | h)
        · revert h; decide
        · revert h; decide
        · exact hamp h)
  rw [fixedValue_theme, valueEntries_theme] at ht
  rw [fixedValue_w, valueEntries_w] at hw
  have e1 : "theme=".toList ++ V = "theme".toList ++ '=' :: V := rfl
  have e2 : "w=".toList ++ V = "w".toList ++ '=' :: V := rfl
  have hsplit : V = before '=' V ++ V.drop (before '=' V).length := by
    have h1 : before '=' V = V.take (before '=' V).length := by
      have hpre : before '=' V <+: V := List.takeWhile_prefix _
      exact (List.prefix_iff_eq_take.mp hpre)
    conv_lhs => rw [← List.take_append_drop (before '=' V).length V]
    rw [← h1]
  have hth1 : before '=' V ≠ "white".toList →
      fixPlaylistProperties ("theme=".toList ++ V) report =
        .ok ("theme=white".toList ++ V.drop (before '=' V).length,
          report ++ ["Invalid playlist theme ('theme' property) - should be white".toList]) := by
    intro hv
    have hv2 : before '=' V ≠ themeName := hv
    rw [e1, ht, if_pos hv2]
    rfl
  have hw1 : before '=' V ≠ "500".toList →
      fixPlaylistProperties ("w=".toList ++ V) report =
        .ok ("w=500".toList ++ V.drop (before '=' V).length,
          report ++ ["Invalid width value ('w' property) - should be 500".toList]) := by
    intro hv
    have hv2 : before '=' V ≠ embedWidth := hv
    rw [e2, hw, if_pos hv2]
    rfl
  refine ⟨hth1, ?_, ?_, hw1, ?_, ?_⟩
  · intro hv
    have hv2 : ¬ before '=' V ≠ themeName := by simpa using hv
    rw [e1, ht, if_neg hv2, List.append_nil]
    have : themeName ++ V.drop (before '=' V).length = V := by
      have hv3 : themeName = before '=' V := hv.symm
      rw [hv3]
      exact hsplit.symm
    rw [this]
  · intro hne hv
    have hb := before_of_not_mem hne
    rw [hth1 (by rw [hb]; exact hv), hb]
    simp
  · intro hv
    have hv2 : ¬ before '=' V ≠ embedWidth := by simpa using hv
    rw [e2, hw, if_neg hv2, List.append_nil]
    have : embedWidth ++ V.drop (before '=' V).length = V := by
      have hv3 : embedWidth = before '=' V := hv.symm
      rw [hv3]
      exact hsplit.symm
    rw [this]
  · intro hne hv
    have hb := before_of_not_mem hne
    rw [hw1 (by rw [hb]; exact hv), hb]
    simp

/-- The parameters `theme=black` and `w=300`
become exactly `theme=white` and `w=500`, each with its entry. -/
theorem fixPlaylistProperties_theme_w_second_field_example :
    fixPlaylistProperties "theme=black".toList [] =
      .ok ("theme=white".toList,
        ["Invalid playlist theme ('theme' property) - should be white".toList]) ∧
    fixPlaylistProperties "w=300".toList [] =
      .ok ("w=500".toList, ["Invalid width value ('w' property) - should be 500".toList]) :=
  ⟨(fixPlaylistProperties_theme_w_second_field "black".toList [] (by decide)).2.2.1
      (by decide) (by decide),
    (fixPlaylistProperties_theme_w_second_field "300".toList [] (by decide)).2.2.2.2.2
      (by decide) (by decide)⟩

/-! ## The parameter sequence -/

theorem before_propFixed (p : Str) : before '=' (propFixed p) = before '=' p := by
  cases hs : strings.Split p '=' with
  | nil => exact absurd hs (strings.Split_ne_nil _ _)
  | cons key r =>
    cases r with
    | nil => rw [propFixed_of_single hs]
    | cons v rest =>
      have h1 := strings.Split_eq_before_cons (propFixed p) '='
      have h2 := strings.Split_eq_before_cons p '='
      rw [Split_propFixed hs] at h1
      rw [hs] at h2
      rw [← (List.cons.inj h1).1, ← (List.cons.inj h2).1]

theorem propFixed_of_other_key {p : Str} (h1 : before '=' p ≠ "theme".toList)
    (h2 : before '=' p ≠ "w".toList) (h3 : before '=' p ≠ "withart".toList) :
    propFixed p = p := by
  cases hs : strings.Split p '=' with
  | nil => exact absurd hs (strings.Split_ne_nil _ _)
  | cons key r =>
    cases r with
    | nil => rw [propFixed_of_single hs]
    | cons v rest =>
      have hk := strings.Split_eq_before_cons p '='
      rw [hs] at hk
      have hkey : key = before '=' p := (List.cons.inj hk).1
      rw [propFixed_of_fields hs, fixedValue_other (hkey ▸ h1) (hkey ▸ h2) (hkey ▸ h3), ← hs,
        strings.Join_Split]

/-- The function `fixPlaylistProperties` on a string without `&`, that is on
one parameter. -/
theorem fixPlaylistProperties_one {p : Str} (report : List Str) (hamp : '&' ∉ p)
    (hp : propPanics p = false) :
    fixPlaylistProperties p report = .ok (propFixed p, report ++ propEntries p) := by
  rw [fixPlaylistProperties_eq, strings.Split_of_not_mem hamp]
  simp [hp, strings.Join]

/-- What a returning call of `fixPlaylistProperties` has done. -/
theorem fixPlaylistProperties_ok_inv {rawProps out : Str} {report report2 : List Str}
    (hok : fixPlaylistProperties rawProps report = .ok (out, report2)) :
    (strings.Split rawProps '&').any propPanics = false ∧
    strings.Split out '&' = (strings.Split rawProps '&').map propFixed ∧
    report2 = report ++ (strings.Split rawProps '&').flatMap propEntries := by
  rw [fixPlaylistProperties_eq] at hok
  by_cases hp : (strings.Split rawProps '&').any propPanics = true
  · rw [if_pos hp] at hok
    exact absurd hok (by simp)
  · rw [if_neg hp] at hok
    rw [Bool.not_eq_true] at hp
    simp only [Except.ok.injEq, Prod.mk.injEq] at hok
    obtain ⟨h1, h2⟩ := hok
    refine ⟨hp, ?_, h2.symm⟩
    rw [← h1]
    have : "&".toList = ['&'] := rfl
    rw [this]
    apply strings.Split_Join (by simpa using strings.Split_ne_nil _ _)
    intro q hmem
    obtain ⟨p, hp2, rfl⟩ := List.mem_map.mp hmem
    exact not_mem_propFixed (strings.not_mem_of_mem_Split hp2 (Or.inl rfl)) (by decide)

/-- Claim C9. When `fixPlaylistProperties` returns, its output has as many
`&`-separated parameters as its input, and at every position the output
parameter has the key (the text before the first `=`) of the input parameter,
is the input parameter itself when that key is none of `theme`, `w`,
`withart`, and is what `fixPlaylistProperties` gives for the input parameter
alone, so that parameters with the same key are fixed each at its own
position. -/
theorem fixPlaylistProperties_keeps_parameters (rawProps out : Str)
    (report report2 : List Str)
    (hok : fixPlaylistProperties rawProps report = .ok (out, report2)) :
    (out.splitOn '&').length = (rawProps.splitOn '&').length ∧
    ∀ (i : Nat) (pin pout : Str),
      (rawProps.splitOn '&')[i]? = some pin → (out.splitOn '&')[i]? = some pout →
        before '=' pout = before '=' pin ∧
        (before '=' pin ≠ "theme".toList → before '=' pin ≠ "w".toList →
          before '=' pin ≠ "withart".toList → pout = pin) ∧
        ∃ entries, fixPlaylistProperties pin [] = .ok (pout, entries) := by
  obtain ⟨hnp, hsplit, -⟩ := fixPlaylistProperties_ok_inv hok
  rw [← strings.Split_eq_splitOn, ← strings.Split_eq_splitOn, hsplit]
  refine ⟨by simp, ?_⟩
  intro i pin pout hin hout
  rw [List.getElem?_map, hin] at hout
  simp only [Option.map_some', Option.some.injEq] at hout
  subst hout
  have hmem : pin ∈ strings.Split rawProps '&' := List.getElem?_mem hin
  have hamp : '&' ∉ pin := strings.not_mem_of_mem_Split hmem (Or.inl rfl)
  have hpp : propPanics pin = false := by
    have := (List.any_eq_false.mp hnp) pin hmem
    simpa using this
  exact ⟨before_propFixed pin, fun h1 h2 h3 => propFixed_of_other_key h1 h2 h3,
    _, fixPlaylistProperties_one [] hamp hpp⟩

/-- Claim C9, example. On `theme=black&x=1&theme=white&w=3` the four
parameters keep their positions and keys: both `theme` parameters are fixed at
their own place and `x=1` is copied. -/
theorem fixPlaylistProperties_keeps_parameters_example :
    fixPlaylistProperties "theme=black&x=1&theme=white&w=3".toList [] =
      .ok ("theme=white&x=1&theme=white&w=500".toList,
        ["Invalid playlist theme ('theme' property) - should be white".toList,
          "Invalid width value ('w' property) - should be 500".toList]) ∧
    ("theme=white&x=1&theme=white&w=500".toList.splitOn '&').length =
      ("theme=black&x=1&theme=white&w=3".toList.splitOn '&').length ∧
    before '=' "x=1".toList = before '=' "x=1".toList ∧
    (before '=' "x=1".toList ≠ "theme".toList → before '=' "x=1".toList ≠ "w".toList →
      before '=' "x=1".toList ≠ "withart".toList → "x=1".toList = "x=1".toList) ∧
    ∃ entries, fixPlaylistProperties "x=1".toList [] = .ok ("x=1".toList, entries) :=
  ⟨rfl,
    (fixPlaylistProperties_keeps_parameters "theme=black&x=1&theme=white&w=3".toList _ [] _
      rfl).1,
    (fixPlaylistProperties_keeps_parameters "theme=black&x=1&theme=white&w=3".toList
      "theme=white&x=1&theme=white&w=500".toList [] _ rfl).2 1 "x=1".toList "x=1".toList
      (by decide) (by decide)⟩

/-! ## One entry per correction -/

theorem length_flatMap_propEntries (ps : List Str) :
    (ps.flatMap propEntries).length =
      (ps.zip (ps.map propFixed)).countP (fun x => decide (x.1 ≠ x.2)) := by
  induction ps with
  | nil => simp
  | cons p t ih =>
    rw [List.flatMap_cons, List.length_append, ih, propEntries_length, List.map_cons,
      List.zip_cons_cons, List.countP_cons]
    by_cases h : propFixed p = p
    · simp only [h, if_true, ne_eq, not_true_eq_false, decide_False, Bool.false_eq_true,
        if_false]
      omega
    · have h2 : p ≠ propFixed p := fun e => h e.symm
      simp only [h, if_false, h2, ne_eq, not_false_eq_true, decide_True, if_true]
      omega

theorem map_eq_self_iff {f : Str → Str} {l : List Str} : l.map f = l ↔ ∀ x ∈ l, f x = x := by
  induction l with
  | nil => simp
  | cons a t ih => simp [ih]

/-- Nothing is recorded exactly when the base URL and every parameter are
already fixed. -/
theorem entries_eq_nil_iff (base : Str) (params : List Str) :
    urlEntries base ++ params.flatMap propEntries = [] ↔
      secureScheme base = base ∧ params.map propFixed = params := by
  have hu : urlEntries base = [] ↔ secureScheme base = base := by
    have h := urlEntries_length base
    constructor
    · intro e
      rw [e] at h
      by_contra hne
      rw [if_neg hne] at h
      simp at h
    · intro e
      rw [if_pos e] at h
      exact List.length_eq_zero.mp h
  have hp : ∀ p, propEntries p = [] ↔ propFixed p = p := by
    intro p
    have h := propEntries_length p
    constructor
    · intro e
      rw [e] at h
      by_contra hne
      rw [if_neg hne] at h
      simp at h
    · intro e
      rw [if_pos e] at h
      exact List.length_eq_zero.mp h
  rw [List.append_eq_nil, hu, List.flatMap_eq_nil_iff, map_eq_self_iff]
  constructor
  · rintro ⟨h1, h2⟩
    exact ⟨h1, fun p hmem => (hp p).mp (h2 p hmem)⟩
  · rintro ⟨h1, h2⟩
    exact ⟨h1, fun p hmem => (hp p).mpr (h2 p hmem)⟩

theorem components_fixedSrc {src : Str} (hq : '?' ∈ src) :
    components (fixedSrc src) =
      secureScheme (before '?' src) :: (strings.Split (queryField src) '&').map propFixed := by
  obtain ⟨-, hs2⟩ := Split_fixedSrc hq
  have hb : '?' ∉ secureScheme (before '?' src) :=
    not_mem_secureScheme (not_mem_before _ _) (by decide)
  have e1 : "?".toList = ['?'] := rfl
  unfold components
  rw [fixedSrc_eq, e1, List.append_assoc, List.singleton_append, before_append_sep hb,
    after_append_sep hb, ← strings.Split_eq_splitOn, hs2]

/-- On a `src` value with exactly one `?`, the entries `fixSrcAttribute`
appends are as many as the components whose text differs between the `src`
before and the `src` after, and nothing is appended if and only if `src` is
unchanged. -/
theorem fixSrcAttribute_entries_of_one_query (embedNode : Selection)
    (doc doc2 : Document) (report report2 : List Str) (src : Str) (err : Option Str)
    (hattr : Attr embedNode doc "src".toList = (src, true))
    (hone : src.count '?' = 1)
    (hok : fixSrcAttribute embedNode doc report = .ok (err, doc2, report2)) :
    ∃ appended src2,
      report2 = report ++ appended ∧
      Attr embedNode doc2 "src".toList = (src2, true) ∧
      (components src2).length = (components src).length ∧
      appended.length =
        ((components src).zip (components src2)).countP (fun x => decide (x.1 ≠ x.2)) ∧
      (appended = [] ↔ src2 = src) := by
  obtain ⟨hq, -, -, hdoc, hrep⟩ := fixSrcAttribute_ok_inv hattr hok
  have hqf := queryField_of_count_one hone
  refine ⟨urlEntries (before '?' src) ++ (strings.Split (queryField src) '&').flatMap propEntries,
    fixedSrc src, by rw [hrep, List.append_assoc], ?_, ?_, ?_, ?_⟩
  · rw [hdoc]; exact Attr_SetAttr_same (by rw [hattr]) _
  · rw [components_fixedSrc hq, hqf]
    simp [components, strings.Split_eq_splitOn]
  · rw [components_fixedSrc hq, hqf, components, ← strings.Split_eq_splitOn,
      List.zip_cons_cons, List.countP_cons, List.length_append, length_flatMap_propEntries,
      urlEntries_length]
    by_cases h : secureScheme (before '?' src) = before '?' src
    · simp only [h, if_true, ne_eq, not_true_eq_false, decide_False, Bool.false_eq_true,
        if_false]
      omega
    · have h2 : before '?' src ≠ secureScheme (before '?' src) := fun e => h e.symm
      simp only [h, if_false, h2, ne_eq, not_false_eq_true, decide_True, if_true]
      omega
  · have hsrc : src = before '?' src ++ '?' :: after '?' src := eq_before_after hq
    have hjoin : strings.Join (strings.Split (after '?' src) '&') "&".toList = after '?' src :=
      strings.Join_Split _ _
    rw [entries_eq_nil_iff, hqf]
    constructor
    · rintro ⟨h1, h2⟩
      rw [fixedSrc_eq, hqf, h1, h2, hjoin]
      conv_rhs => rw [hsrc]
      simp
    · intro heq
      obtain ⟨hs1, hs2⟩ := Split_fixedSrc hq
      rw [heq, strings.Split_of_count_one hone, hqf] at hs1
      simp only [List.cons.injEq, and_true] at hs1
      obtain ⟨h1, h2⟩ := hs1
      refine ⟨h1.symm, ?_⟩
      rw [hqf, ← h2] at hs2
      exact hs2.symm

/-- On the specification's example, which has one `?`, all four components
differ between the `src` before and after and four entries are appended. -/
theorem fixSrcAttribute_entries_of_one_query_example :
    (components sampleSrc).zip (components sampleFixedSrc) =
      [("http://example.com".toList, "https://example.com".toList),
        ("theme=black".toList, "theme=white".toList), ("w=300".toList, "w=500".toList),
        ("withart=http://x.test/a.png".toList, "withart=https://x.test/a.png".toList)] ∧
    ∃ appended src2,
      ["Malformed playlist URL - http:// used instead of https://".toList,
        "Invalid playlist theme ('theme' property) - should be white".toList,
        "Invalid width value ('w' property) - should be 500".toList,
        "Malformed cover art URL ('withart' property)- http:// used instead of https://".toList]
        = [] ++ appended ∧
      Attr [0] (embedOnly [⟨"src".toList, sampleFixedSrc⟩]) "src".toList = (src2, true) ∧
      (components src2).length = (components sampleSrc).length ∧
      appended.length =
        ((components sampleSrc).zip (components src2)).countP (fun x => decide (x.1 ≠ x.2)) ∧
      (appended = [] ↔ src2 = sampleSrc) :=
  ⟨by decide,
    fixSrcAttribute_entries_of_one_query [0] (embedOnly [⟨"src".toList, sampleSrc⟩])
      (embedOnly [⟨"src".toList, sampleFixedSrc⟩]) [] _ sampleSrc none (by rfl) (by decide)
      (by rfl)⟩

/-- Claim C10. What `fixSrcAttribute` does on `https://a.test?x=1?y=2`: it
appends no entry, although one component differs between the `src` before and
the `src` after: the parameter `x=1?y=2` of the query string has become
`x=1`. -/
theorem fixSrcAttribute_no_entry_for_cut_off_text :
    fixSrcAttribute [0] (embedOnly [⟨"src".toList, "https://a.test?x=1?y=2".toList⟩]) [] =
      .ok (none, embedOnly [⟨"src".toList, "https://a.test?x=1".toList⟩], []) ∧
    (components "https://a.test?x=1?y=2".toList).zip (components "https://a.test?x=1".toList) =
      [("https://a.test".toList, "https://a.test".toList),
        ("x=1?y=2".toList, "x=1".toList)] ∧
    ((components "https://a.test?x=1?y=2".toList).zip
      (components "https://a.test?x=1".toList)).countP (fun x => decide (x.1 ≠ x.2)) = 1 ∧
    ([] : List Str).length = 0 :=
  ⟨rfl, by decide, by decide, rfl⟩

/-! ## When the fixers panic -/

/-- The loop body panics exactly on the bare words `theme`, `w` and
`withart`. -/
theorem propPanics_iff (p : Str) :
    propPanics p = true ↔ p = "theme".toList ∨ p = "w".toList ∨ p = "withart".toList := by
  constructor
  · intro h
    have hj := strings.Join_Split p '='
    unfold propPanics at h
    simp only [propPairSeparator] at h
    cases hs : strings.Split p '=' with
    | nil => exact absurd hs (strings.Split_ne_nil _ _)
    | cons key r =>
      cases r with
      | nil =>
        rw [hs] at h hj
        simp only [strings.Join] at hj
        subst hj
        simpa [knownKey, or_assoc] using h
      | cons v rest =>
        rw [hs] at h
        simp at h
  · rintro (h | h | h) <;> subst h <;> rfl

theorem any_propPanics_iff (ps : List Str) :
    ps.any propPanics = true ↔
      ∃ p ∈ ps, p = "theme".toList ∨ p = "w".toList ∨ p = "withart".toList := by
  rw [List.any_eq_true]
  constructor
  · rintro ⟨p, hp, h⟩
    exact ⟨p, hp, (propPanics_iff p).mp h⟩
  · rintro ⟨p, hp, h⟩
    exact ⟨p, hp, (propPanics_iff p).mpr h⟩

/-- Claim C12. What `CheckFile` does when the output file cannot be created:
`writeDocumentToFile` returns its error, and `CheckFile` drops it and returns
the report with a nil error. -/
theorem CheckFile_write_failure_not_reported :
    writeDocumentToFile (readOnlyFiles (embedOnly [⟨"width".toList, "500".toList⟩]))
        "out.html".toList (embedOnly [⟨"width".toList, "500".toList⟩]) =
      (readOnlyFiles (embedOnly [⟨"width".toList, "500".toList⟩]),
        some "Unable to create file 'out.html' (permission denied)".toList) ∧
    CheckFile
        (readOnlyFiles (embedOnly [⟨"src".toList, sampleSrc⟩, ⟨"width".toList, "400".toList⟩]))
        "in.html".toList "out.html".toList =
      .ok (some
        ["Malformed playlist URL - http:// used instead of https://".toList,
          "Invalid playlist theme ('theme' property) - should be white".toList,
          "Invalid width value ('w' property) - should be 500".toList,
          "Malformed cover art URL ('withart' property)- http:// used instead of https://".toList,
          "Invalid width value - should be 500".toList],
        none,
        readOnlyFiles (embedOnly [⟨"src".toList, sampleSrc⟩, ⟨"width".toList, "400".toList⟩])) :=
  ⟨rfl, rfl⟩

/-! ## Only the leading scheme is rewritten -/

theorem before_append_of_not_mem {a : Str} {c : Char} (h : c ∉ a) (t : Str) :
    before c (a ++ t) = a ++ before c t := by
  induction a with
  | nil => simp
  | cons x r ih =>
    have h1 : x ≠ c := fun e => h (by simp [e])
    have h2 : c ∉ r := fun e => h (by simp [e])
    have := ih h2
    simp only [before, ne_eq, decide_not] at this ⊢
    simp [List.takeWhile, h1, this]

theorem before_append_drop (c : Char) (t : Str) :
    before c t ++ t.drop (before c t).length = t := by
  have hpre : before c t <+: t := List.takeWhile_prefix _
  have h1 : before c t = t.take (before c t).length := List.prefix_iff_eq_take.mp hpre
  conv_rhs => rw [← List.take_append_drop (before c t).length t]
  rw [← h1]

theorem secureScheme_of_prefix {url : Str} (h : "http://".toList <+: url) :
    secureScheme url = "https://".toList ++ url.drop 7 := by
  unfold secureScheme
  rw [if_pos (List.isPrefixOf_iff_prefix.mpr h)]

theorem secureScheme_of_not_prefix {url : Str} (h : ¬ "http://".toList <+: url) :
    secureScheme url = url := by
  unfold secureScheme
  rw [if_neg (fun e => h (List.isPrefixOf_iff_prefix.mp e))]

theorem urlEntries_of_prefix {url : Str} (h : "http://".toList <+: url) :
    urlEntries url = ["Malformed playlist URL - http:// used instead of https://".toList] := by
  have h2 : strings.HasPrefix url httpProto = true := List.isPrefixOf_iff_prefix.mpr h
  unfold urlEntries
  rw [if_pos h2]

theorem urlEntries_of_not_prefix {url : Str} (h : ¬ "http://".toList <+: url) :
    urlEntries url = [] := by
  have h2 : ¬ strings.HasPrefix url httpProto = true :=
    fun e => h (List.isPrefixOf_iff_prefix.mp e)
  unfold urlEntries
  rw [if_neg h2]

/-- The function `fixPlaylistProperties` on the one parameter `withart=V`
whose value begins with `http://`. -/
theorem fixPlaylistProperties_withart_prefix {V : Str} (report : List Str) (hamp : '&' ∉ V)
    (h : "http://".toList <+: V) :
    fixPlaylistProperties ("withart=".toList ++ V) report =
      .ok ("withart=https://".toList ++ V.drop 7,
        report ++
          ["Malformed cover art URL ('withart' property)- http:// used instead of https://".toList]) := by
  obtain ⟨t, rfl⟩ := h
  have hamp2 : '&' ∉ "withart".toList ++ '=' :: ("http://".toList ++ t) := by
    simp only [List.mem_append, List.mem_cons]
    rintro (h | h | h | h)
    · revert h; decide
    · revert h; decide
    · revert h; decide
    · exact hamp (by simp [h])
  have hb : before '=' ("http://".toList ++ t) = "http://".toList ++ before '=' t :=
    before_append_of_not_mem (by decide) t
  have hpre : strings.HasPrefix ("http://".toList ++ before '=' t) httpProto = true :=
    List.isPrefixOf_iff_prefix.mpr ⟨_, rfl⟩
  have e1 : "withart=".toList ++ ("http://".toList ++ t)
      = "withart".toList ++ '=' :: ("http://".toList ++ t) := rfl
  rw [e1, fixPlaylistProperties_key_value "withart".toList _ report (by decide) hamp2, hb,
    fixedValue_withart_eq, valueEntries_withart, if_pos hpre, if_pos hpre]
  have hd1 : ("http://".toList ++ before '=' t).drop httpProto.length = before '=' t :=
    List.drop_left _ _
  have hd2 : ("http://".toList ++ t).drop ("http://".toList ++ before '=' t).length
      = t.drop (before '=' t).length := by
    rw [List.length_append, ← List.drop_drop, List.drop_left]
  have hd3 : ("http://".toList ++ t).drop 7 = t := List.drop_left "http://".toList t
  rw [hd1, hd2, hd3, List.append_assoc, before_append_drop]
  rfl

/-- The function `fixPlaylistProperties` on the one parameter `withart=V`
whose value does not begin with `http://`. -/
theorem fixPlaylistProperties_withart_no_prefix {V : Str} (report : List Str)
    (hamp : '&' ∉ V) (h : ¬ "http://".toList <+: V) :
    fixPlaylistProperties ("withart=".toList ++ V) report =
      .ok ("withart=".toList ++ V, report) := by
  have hamp2 : '&' ∉ "withart".toList ++ '=' :: V := by
    simp only [List.mem_append, List.mem_cons]
    rintro (h | h | h)
    · revert h; decide
    · revert h; decide
    · exact hamp h
  have hpre : ¬ strings.HasPrefix (before '=' V) httpProto = true := by
    intro e
    exact h ((List.isPrefixOf_iff_prefix.mp e).trans (List.takeWhile_prefix _))
  have e1 : "withart=".toList ++ V = "withart".toList ++ '=' :: V := rfl
  rw [e1, fixPlaylistProperties_key_value "withart".toList _ report (by decide) hamp2,
    fixedValue_withart_eq, valueEntries_withart, if_neg hpre, if_neg hpre, before_append_drop,
    List.append_nil]

/-- Claim C13. Only the leading scheme is rewritten. For a `url` that begins
with `http://`, `fixPlaylistUrl` returns `https://` followed by the rest of
`url` after those 7 characters and appends exactly the entry
`Malformed playlist URL - http:// used instead of https://`; for any other
`url` it returns `url` and the report as they are. The same holds for the
value `V` of a parameter `withart=V`, with the cover-art entry. -/
theorem only_leading_scheme_rewritten (url V : Str) (report : List Str) (hamp : '&' ∉ V) :
    ("http://".toList <+: url →
      fixPlaylistUrl url report =
        ("https://".toList ++ url.drop 7,
          report ++ ["Malformed playlist URL - http:// used instead of https://".toList])) ∧
    (¬ "http://".toList <+: url → fixPlaylistUrl url report = (url, report)) ∧
    ("http://".toList <+: V →
      fixPlaylistProperties ("withart=".toList ++ V) report =
        .ok ("withart=https://".toList ++ V.drop 7,
          report ++
            ["Malformed cover art URL ('withart' property)- http:// used instead of https://".toList])) ∧
    (¬ "http://".toList <+: V →
      fixPlaylistProperties ("withart=".toList ++ V) report =
        .ok ("withart=".toList ++ V, report)) := by
  refine ⟨?_, ?_, fixPlaylistProperties_withart_prefix report hamp,
    fixPlaylistProperties_withart_no_prefix report hamp⟩
  · intro h
    rw [fixPlaylistUrl_eq, secureScheme_of_prefix h, urlEntries_of_prefix h]
  · intro h
    rw [fixPlaylistUrl_eq, secureScheme_of_not_prefix h, urlEntries_of_not_prefix h,
      List.append_nil]

/-- Claim C13, example. In `http://a.test/http://b` only the leading
`http://` is rewritten, and a `url` that begins with `https://` stays; the
same for the value of `withart`. -/
theorem only_leading_scheme_rewritten_example :
    fixPlaylistUrl "http://a.test/http://b".toList [] =
      ("https://a.test/http://b".toList,
        ["Malformed playlist URL - http:// used instead of https://".toList]) ∧
    fixPlaylistUrl "https://a.test/http://b".toList [] = ("https://a.test/http://b".toList, []) ∧
    fixPlaylistProperties "withart=http://x.test/http://y".toList [] =
      .ok ("withart=https://x.test/http://y".toList,
        ["Malformed cover art URL ('withart' property)- http:// used instead of https://".toList]) ∧
    fixPlaylistProperties "withart=https://x.test/http://y".toList [] =
      .ok ("withart=https://x.test/http://y".toList, []) :=
  ⟨(only_leading_scheme_rewritten "http://a.test/http://b".toList [] [] (by decide)).1
      (by decide),
    (only_leading_scheme_rewritten "https://a.test/http://b".toList [] [] (by decide)).2.1
      (by decide),
    (only_leading_scheme_rewritten [] "http://x.test/http://y".toList [] (by decide)).2.2.1
      (by decide),
    (only_leading_scheme_rewritten [] "https://x.test/http://y".toList [] (by decide)).2.2.2
      (by decide)⟩

/-! ## Exact comparison of keys and values -/

theorem propEntries_of_fields {p key v : Str} {rest : List Str}
    (hs : strings.Split p '=' = key :: v :: rest) : propEntries p = valueEntries key v := by
  unfold propEntries
  simp only [propPairSeparator, hs]

theorem propPanics_of_fields {p key v : Str} {rest : List Str}
    (hs : strings.Split p '=' = key :: v :: rest) : propPanics p = false := by
  unfold propPanics
  simp only [propPairSeparator, hs]

/-- The comparison the loop makes, for one parameter with key `key` (its
text before the first `=`) and `V` its next `=`-separated field (all the text
after the `=` when there is just one): with key `w` the parameter is left
alone, with no entry, when `V` is the string `500`, and otherwise `V` is
replaced by `500` and the width entry recorded; with key `theme` the same with
`white` and the theme entry; and with a key that is not exactly `theme`, `w`
or `withart` it is left unchanged with no entry. -/
theorem known_keys_compared_exactly (p key V : Str) (rest : List Str) (report : List Str)
    (hamp : '&' ∉ p) (hfields : p.splitOn '=' = key :: V :: rest) :
    (key = "w".toList →
      (V = "500".toList → fixPlaylistProperties p report = .ok (p, report)) ∧
      (V ≠ "500".toList →
        fixPlaylistProperties p report =
          .ok ("=".toList.intercalate ("w".toList :: "500".toList :: rest),
            report ++ ["Invalid width value ('w' property) - should be 500".toList]))) ∧
    (key = "theme".toList →
      (V = "white".toList → fixPlaylistProperties p report = .ok (p, report)) ∧
      (V ≠ "white".toList →
        fixPlaylistProperties p report =
          .ok ("=".toList.intercalate ("theme".toList :: "white".toList :: rest),
            report ++
              ["Invalid playlist theme ('theme' property) - should be white".toList]))) ∧
    (key ≠ "theme".toList → key ≠ "w".toList → key ≠ "withart".toList →
      fixPlaylistProperties p report = .ok (p, report)) := by
  rw [← strings.Split_eq_splitOn] at hfields
  have hp : p = strings.Join (key :: V :: rest) ['='] := by
    rw [← hfields, strings.Join_Split]
  have hrun := fixPlaylistProperties_one report hamp (propPanics_of_fields hfields)
  rw [propFixed_of_fields hfields, propEntries_of_fields hfields] at hrun
  have e1 : "=".toList = ['='] := rfl
  refine ⟨?_, ?_, ?_⟩
  · intro hk
    subst hk
    rw [fixedValue_w, valueEntries_w] at hrun
    constructor
    · intro hv
      have hv2 : ¬ V ≠ embedWidth := by simpa using hv
      rw [hrun, if_neg hv2, List.append_nil]
      have hv3 : embedWidth = V := hv.symm
      rw [hv3, ← hp]
    · intro hv
      have hv2 : V ≠ embedWidth := hv
      rw [hrun, if_pos hv2, ← strings.Join_eq_intercalate, e1]
      rfl
  · intro hk
    subst hk
    rw [fixedValue_theme, valueEntries_theme] at hrun
    constructor
    · intro hv
      have hv2 : ¬ V ≠ themeName := by simpa using hv
      rw [hrun, if_neg hv2, List.append_nil]
      have hv3 : themeName = V := hv.symm
      rw [hv3, ← hp]
    · intro hv
      have hv2 : V ≠ themeName := hv
      rw [hrun, if_pos hv2, ← strings.Join_eq_intercalate, e1]
      rfl
  · intro h1 h2 h3
    rw [hrun, fixedValue_other h1 h2 h3, valueEntries_other h1 h2 h3, List.append_nil, ← hp]

/-- The parameters `w=0500`, `w=500.0` and `theme=White` are
rewritten to `w=500`, `w=500` and `theme=white` and recorded; `w=500` is left
alone; `Theme=black`, `W=300` and `width=300` are left unchanged with no
entry. -/
theorem known_keys_compared_exactly_example :
    fixPlaylistProperties "w=0500".toList [] =
      .ok ("w=500".toList, ["Invalid width value ('w' property) - should be 500".toList]) ∧
    fixPlaylistProperties "w=500.0".toList [] =
      .ok ("w=500".toList, ["Invalid width value ('w' property) - should be 500".toList]) ∧
    fixPlaylistProperties "w=500".toList [] = .ok ("w=500".toList, []) ∧
    fixPlaylistProperties "theme=White".toList [] =
      .ok ("theme=white".toList,
        ["Invalid playlist theme ('theme' property) - should be white".toList]) ∧
    fixPlaylistProperties "Theme=black".toList [] = .ok ("Theme=black".toList, []) ∧
    fixPlaylistProperties "W=300".toList [] = .ok ("W=300".toList, []) ∧
    fixPlaylistProperties "width=300".toList [] = .ok ("width=300".toList, []) :=
  ⟨((known_keys_compared_exactly "w=0500".toList "w".toList "0500".toList [] []
      (by decide) (by decide)).1 rfl).2 (by decide),
    ((known_keys_compared_exactly "w=500.0".toList "w".toList "500.0".toList [] []
      (by decide) (by decide)).1 rfl).2 (by decide),
    ((known_keys_compared_exactly "w=500".toList "w".toList "500".toList [] []
      (by decide) (by decide)).1 rfl).1 rfl,
    ((known_keys_compared_exactly "theme=White".toList "theme".toList "White".toList [] []
      (by decide) (by decide)).2.1 rfl).2 (by decide),
    (known_keys_compared_exactly "Theme=black".toList "Theme".toList "black".toList [] []
      (by decide) (by decide)).2.2 (by decide) (by decide) (by decide),
    (known_keys_compared_exactly "W=300".toList "W".toList "300".toList [] []
      (by decide) (by decide)).2.2 (by decide) (by decide) (by decide),
    (known_keys_compared_exactly "width=300".toList "width".toList "300".toList [] []
      (by decide) (by decide)).2.2 (by decide) (by decide) (by decide)⟩

/-- Claim C14. What `fixPlaylistProperties` does on `w=500=x` and on
`theme=white=x`: each is left alone with no entry, although the values
`500=x` and `white=x` are not the strings `500` and `white`; and `w=0500=1`,
whose value is not `500`, is not rewritten to `w=500` but to `w=500=1`. -/
theorem known_key_left_alone_with_other_value :
    fixPlaylistProperties "w=500=x".toList ["earlier entry".toList] =
      .ok ("w=500=x".toList, ["earlier entry".toList]) ∧
    after '=' "w=500=x".toList = "500=x".toList ∧ "500=x".toList ≠ "500".toList ∧
    fixPlaylistProperties "theme=white=x".toList ["earlier entry".toList] =
      .ok ("theme=white=x".toList, ["earlier entry".toList]) ∧
    after '=' "theme=white=x".toList = "white=x".toList ∧
    "white=x".toList ≠ "white".toList ∧
    fixPlaylistProperties "w=0500=1".toList ["earlier entry".toList] =
      .ok ("w=500=1".toList,
        ["earlier entry".toList, "Invalid width value ('w' property) - should be 500".toList]) ∧
    "w=500=1".toList ≠ "w=500".toList :=
  ⟨rfl, by decide, by decide, rfl, by decide, by decide, rfl, by decide⟩

/-! ## `CheckFile` runs both fixers -/

/-- The function `CheckFile` once the file is parsed and the `<embed>`
element found. -/
theorem CheckFile_of_embed {fs : FileSystem} {loadPath : Str} {doc : Document}
    {embed : Selection} (savePath : Str) (hload : fs.load loadPath = .document doc)
    (hembed : getEmbed doc = .ok embed) :
    CheckFile fs loadPath savePath =
      match fixSrcAttribute embed doc [] with
      | .error p => .error p
      | .ok (_, doc1, report1) =>
        .ok (some (fixWidthAttribute embed doc1 report1).2.2, none,
          (writeDocumentToFile fs savePath (fixWidthAttribute embed doc1 report1).2.1).1) := by
  unfold CheckFile parseFile
  simp only [hload, hembed]

theorem getEmbed_of_one {doc : Document} (h : embedCount doc = 1) :
    getEmbed doc = .ok (Find doc "embed".toList) := by
  rw [getEmbed_eq, if_neg (by omega), if_pos h]

/-- Claim C15. The two fixers run whatever the other returns. For a file
that parses to a document with exactly one `<embed>` element: when the element
has no `src` attribute and a `width` other than `500`, `CheckFile` still fixes
the width, so that `width` reads `500` in the document written and the report
is the entry `Invalid width value - should be 500`; and when the element has
no `width` attribute and `fixSrcAttribute` succeeds, the document written and
the report returned are the ones `fixSrcAttribute` left. -/
theorem fixers_run_independently (fs : FileSystem) (loadPath savePath : Str)
    (doc : Document) (hload : fs.load loadPath = .document doc)
    (hone : embedCount doc = 1) :
    (∀ v, (Attr (Find doc "embed".toList) doc "src".toList).2 = false →
      Attr (Find doc "embed".toList) doc "width".toList = (v, true) → v ≠ "500".toList →
        CheckFile fs loadPath savePath =
          .ok (some ["Invalid width value - should be 500".toList], none,
            (writeDocumentToFile fs savePath
              (SetAttr (Find doc "embed".toList) doc "width".toList "500".toList)).1) ∧
        Attr (Find doc "embed".toList)
            (SetAttr (Find doc "embed".toList) doc "width".toList "500".toList) "width".toList
          = ("500".toList, true)) ∧
    (∀ doc1 report1, (Attr (Find doc "embed".toList) doc "width".toList).2 = false →
      fixSrcAttribute (Find doc "embed".toList) doc [] = .ok (none, doc1, report1) →
        CheckFile fs loadPath savePath =
          .ok (some report1, none, (writeDocumentToFile fs savePath doc1).1)) := by
  have hcf := CheckFile_of_embed savePath hload (getEmbed_of_one hone)
  constructor
  · intro v hsrc hwidth hv
    have hv2 : v ≠ embedWidth := hv
    rw [fixSrcAttribute_of_no_attr [] hsrc] at hcf
    simp only [fixWidthAttribute_of_attr [] hwidth, if_pos hv2] at hcf
    exact ⟨hcf, Attr_SetAttr_same (by rw [hwidth]) _⟩
  · intro doc1 report1 hwidth hsrc
    obtain ⟨src, hattr⟩ := fixSrcAttribute_ok_attr hsrc
    obtain ⟨-, -, -, hdoc, -⟩ := fixSrcAttribute_ok_inv hattr hsrc
    have hwidth1 : (Attr (Find doc "embed".toList) doc1 "width".toList).2 = false := by
      rw [hdoc, Attr_SetAttr_other (by decide)]
      exact hwidth
    rw [hsrc] at hcf
    simp only [fixWidthAttribute_of_no_attr report1 hwidth1] at hcf
    exact hcf

/-- Claim C15, example. Without `src` and with width `400` the width is fixed,
reported and written; without `width` the fixed example `src` is reported and
written. -/
theorem fixers_run_independently_example :
    CheckFile (sampleFiles (embedOnly [⟨"width".toList, "400".toList⟩]))
        "in.html".toList "out.html".toList =
      .ok (some ["Invalid width value - should be 500".toList], none,
        { sampleFiles (embedOnly [⟨"width".toList, "400".toList⟩]) with
          written := [("out.html".toList, embedOnly [⟨"width".toList, "500".toList⟩])] }) ∧
    CheckFile (sampleFiles (embedOnly [⟨"src".toList, sampleSrc⟩]))
        "in.html".toList "out.html".toList =
      .ok (some
        ["Malformed playlist URL - http:// used instead of https://".toList,
          "Invalid playlist theme ('theme' property) - should be white".toList,
          "Invalid width value ('w' property) - should be 500".toList,
          "Malformed cover art URL ('withart' property)- http:// used instead of https://".toList],
        none,
        { sampleFiles (embedOnly [⟨"src".toList, sampleSrc⟩]) with
          written := [("out.html".toList, embedOnly [⟨"src".toList, sampleFixedSrc⟩])] }) :=
  ⟨((fixers_run_independently (sampleFiles (embedOnly [⟨"width".toList, "400".toList⟩]))
      "in.html".toList "out.html".toList (embedOnly [⟨"width".toList, "400".toList⟩]) rfl
      (by decide)).1 "400".toList rfl rfl (by decide)).1,
    (fixers_run_independently (sampleFiles (embedOnly [⟨"src".toList, sampleSrc⟩]))
      "in.html".toList "out.html".toList (embedOnly [⟨"src".toList, sampleSrc⟩]) rfl
      (by decide)).2 (embedOnly [⟨"src".toList, sampleFixedSrc⟩]) _ rfl (by rfl)⟩

/-! ## The exact failure condition of `fixPlaylistProperties` -/

theorem propFixed_of_no_eq {p : Str} (h : '=' ∉ p) : propFixed p = p :=
  propFixed_of_single (strings.Split_of_not_mem h)

theorem propEntries_of_no_eq {p : Str} (h : '=' ∉ p) : propEntries p = [] := by
  unfold propEntries
  simp only [propPairSeparator, strings.Split_of_not_mem h]

/-- Claim C16. The function `fixPlaylistProperties` fails, with the
index-out-of-range panic, if and only if some `&`-separated parameter of its
input is exactly the bare word `theme`, `w` or `withart`; on every other input
it returns a result. A parameter without `=` that is none of these words (an
unknown key such as `foo`, or the empty parameter) is passed through unchanged
with no entry, alone or at its position among others, and so is the empty
query string. -/
theorem fixPlaylistProperties_fails_iff (rawProps : Str) (report : List Str) :
    ((∃ e, fixPlaylistProperties rawProps report = .error e) ↔
      ∃ p ∈ rawProps.splitOn '&', p = "theme".toList ∨ p = "w".toList ∨ p = "withart".toList) ∧
    ((∃ p ∈ rawProps.splitOn '&', p = "theme".toList ∨ p = "w".toList ∨ p = "withart".toList) →
      fixPlaylistProperties rawProps report = .error (.indexOutOfRange 1 1)) ∧
    ((¬ ∃ p ∈ rawProps.splitOn '&',
        p = "theme".toList ∨ p = "w".toList ∨ p = "withart".toList) →
      ∃ out report2, fixPlaylistProperties rawProps report = .ok (out, report2)) ∧
    (∀ p : Str, '&' ∉ p → '=' ∉ p → p ≠ "theme".toList → p ≠ "w".toList →
      p ≠ "withart".toList → fixPlaylistProperties p report = .ok (p, report)) ∧
    fixPlaylistProperties [] report = .ok ([], report) ∧
    (∀ out report2, fixPlaylistProperties rawProps report = .ok (out, report2) →
      ∀ (i : Nat) (pin : Str), (rawProps.splitOn '&')[i]? = some pin → '=' ∉ pin →
        (out.splitOn '&')[i]? = some pin ∧ fixPlaylistProperties pin [] = .ok (pin, [])) := by
  have hone : ∀ (r : List Str) (p : Str), '&' ∉ p → '=' ∉ p → p ≠ "theme".toList →
      p ≠ "w".toList → p ≠ "withart".toList → fixPlaylistProperties p r = .ok (p, r) := by
    intro r p hamp heq h1 h2 h3
    have hpp : propPanics p = false := by
      rw [← Bool.not_eq_true, propPanics_iff]
      rintro (h | h | h)
      · exact h1 h
      · exact h2 h
      · exact h3 h
    rw [fixPlaylistProperties_one r hamp hpp, propFixed_of_no_eq heq, propEntries_of_no_eq heq,
      List.append_nil]
  rw [← strings.Split_eq_splitOn, ← any_propPanics_iff]
  have heq := fixPlaylistProperties_eq rawProps report
  refine ⟨?_, ?_, ?_, hone report, hone report [] (by simp) (by simp) (by decide) (by decide)
    (by decide), ?_⟩
  · by_cases hp : (strings.Split rawProps '&').any propPanics = true
    · rw [heq, if_pos hp]
      simp [hp]
    · rw [heq, if_neg hp]
      simp [hp]
  · intro hp
    rw [heq, if_pos hp]
  · intro hp
    rw [heq, if_neg hp]
    exact ⟨_, _, rfl⟩
  · intro out report2 hok i pin hin hne
    obtain ⟨hnp, hsplit, -⟩ := fixPlaylistProperties_ok_inv hok
    have hmem : pin ∈ strings.Split rawProps '&' := List.getElem?_mem hin
    have hamp : '&' ∉ pin := strings.not_mem_of_mem_Split hmem (Or.inl rfl)
    have hpp : propPanics pin = false := by
      have := (List.any_eq_false.mp hnp) pin hmem
      simpa using this
    refine ⟨?_, ?_⟩
    · rw [← strings.Split_eq_splitOn, hsplit, List.getElem?_map, hin, Option.map_some',
        propFixed_of_no_eq hne]
    · rw [fixPlaylistProperties_one [] hamp hpp, propFixed_of_no_eq hne,
        propEntries_of_no_eq hne]
      rfl

/-- Claim C16, example. The bare words `theme`, `w` and `withart` make the
fixer panic, also among other parameters; `foo`, the empty query string and an
empty parameter between others pass through with no entry. -/
theorem fixPlaylistProperties_fails_iff_example :
    fixPlaylistProperties "theme".toList [] = .error (.indexOutOfRange 1 1) ∧
    fixPlaylistProperties "x=1&w&y=2".toList [] = .error (.indexOutOfRange 1 1) ∧
    fixPlaylistProperties "withart".toList [] = .error (.indexOutOfRange 1 1) ∧
    fixPlaylistProperties "foo".toList [] = .ok ("foo".toList, []) ∧
    fixPlaylistProperties "".toList [] = .ok ("".toList, []) ∧
    fixPlaylistProperties "x=1&&foo&themes".toList [] = .ok ("x=1&&foo&themes".toList, []) :=
  ⟨(fixPlaylistProperties_fails_iff "theme".toList []).2.1 ⟨"theme".toList, by decide, Or.inl rfl⟩,
    (fixPlaylistProperties_fails_iff "x=1&w&y=2".toList []).2.1
      ⟨"w".toList, by decide, Or.inr (Or.inl rfl)⟩,
    (fixPlaylistProperties_fails_iff "withart".toList []).2.1
      ⟨"withart".toList, by decide, Or.inr (Or.inr rfl)⟩,
    (fixPlaylistProperties_fails_iff [] []).2.2.2.1 "foo".toList (by decide) (by decide)
      (by decide) (by decide) (by decide),
    (fixPlaylistProperties_fails_iff [] []).2.2.2.2.1,
    rfl⟩

/-! ## What the fixers leave alone -/

theorem length_setAttrFrom (s : Selection) (k v : Str) (j : Nat) (ns : List Node) :
    (setAttrFrom s k v j ns).length = ns.length := by
  induction ns generalizing j with
  | nil => rfl
  | cons n t ih => simp [setAttrFrom, ih]

/-- Setting one attribute leaves every other attribute of every node as it
was. -/
theorem Attr_SetAttr_frame {k k2 : Str} (hk : k2 ≠ k) (s node : Selection) (doc : Document)
    (v : Str) : Attr node (SetAttr s doc k v) k2 = Attr node doc k2 := by
  cases node with
  | nil => simp [Attr]
  | cons i r =>
    simp only [Attr, SetAttr, List.get?_eq_getElem?, setAttrFrom_getElem?]
    cases hg : doc[i]? with
    | none => simp
    | some n =>
      by_cases hi : i ∈ s
      · simp [hi, getAttributeValue_set_other hk]
      · simp [hi]

/-- Claim C17. Each fixer touches only its own attribute and only appends to
the report. When `fixSrcAttribute` returns, the report it was given is a
prefix of the report it leaves, the document has the same nodes, and every
attribute other than `src` of every node reads as before; when the `src`
attribute is missing it returns its error with the document and the report
unchanged. The same for `fixWidthAttribute` and `width`. -/
theorem fixers_leave_the_rest_alone (embedNode : Selection) (doc : Document)
    (report : List Str) :
    (∀ err doc2 report2, fixSrcAttribute embedNode doc report = .ok (err, doc2, report2) →
      report <+: report2 ∧ doc2.length = doc.length ∧
      ∀ (node : Selection) (k : Str), k ≠ "src".toList → Attr node doc2 k = Attr node doc k) ∧
    ((Attr embedNode doc "src".toList).2 = false →
      fixSrcAttribute embedNode doc report =
        .ok (some "Required 'src' attribute of <embed> element not found".toList, doc,
          report)) ∧
    (∀ err doc2 report2, fixWidthAttribute embedNode doc report = (err, doc2, report2) →
      report <+: report2 ∧ doc2.length = doc.length ∧
      ∀ (node : Selection) (k : Str), k ≠ "width".toList → Attr node doc2 k = Attr node doc k) ∧
    ((Attr embedNode doc "width".toList).2 = false →
      fixWidthAttribute embedNode doc report =
        (some "Required 'width' attribute of <embed> element not found".toList, doc,
          report)) := by
  refine ⟨?_, fixSrcAttribute_of_no_attr report, ?_, fixWidthAttribute_of_no_attr report⟩
  · intro err doc2 report2 hok
    cases h : Attr embedNode doc "src".toList with
    | mk src b =>
      cases b with
      | false =>
        rw [fixSrcAttribute_of_no_attr report (by rw [h])] at hok
        simp only [Except.ok.injEq, Prod.mk.injEq] at hok
        obtain ⟨-, h2, h3⟩ := hok
        subst h2 h3
        exact ⟨List.prefix_refl _, rfl, fun _ _ _ => rfl⟩
      | true =>
        obtain ⟨-, -, -, hdoc, hrep⟩ := fixSrcAttribute_ok_inv h hok
        subst hdoc hrep
        refine ⟨?_, length_setAttrFrom _ _ _ 0 doc, fun node k hk =>
          Attr_SetAttr_frame hk _ _ _ _⟩
        rw [List.append_assoc]
        exact List.prefix_append _ _
  · intro err doc2 report2 hok
    cases h : Attr embedNode doc "width".toList with
    | mk w b =>
      cases b with
      | false =>
        rw [fixWidthAttribute_of_no_attr report (by rw [h])] at hok
        simp only [Prod.mk.injEq] at hok
        obtain ⟨-, h2, h3⟩ := hok
        subst h2 h3
        exact ⟨List.prefix_refl _, rfl, fun _ _ _ => rfl⟩
      | true =>
        rw [fixWidthAttribute_of_attr report h] at hok
        by_cases hw : w = embedWidth
        · rw [if_neg (by simpa using hw)] at hok
          simp only [Prod.mk.injEq] at hok
          obtain ⟨-, h2, h3⟩ := hok
          subst h2 h3
          exact ⟨List.prefix_refl _, rfl, fun _ _ _ => rfl⟩
        · rw [if_pos hw] at hok
          simp only [Prod.mk.injEq] at hok
          obtain ⟨-, h2, h3⟩ := hok
          subst h2 h3
          exact ⟨List.prefix_append _ _, length_setAttrFrom _ _ _ 0 doc, fun node k hk =>
            Attr_SetAttr_frame hk _ _ _ _⟩

/-- Claim C17, example. On an element with the example `src`, width `400` and
a `height`, `fixSrcAttribute` changes `src` alone and `fixWidthAttribute`
changes `width` alone; on an element without attributes each returns its
error and changes nothing. -/
theorem fixers_leave_the_rest_alone_example :
    fixSrcAttribute [0]
        (embedOnly [⟨"src".toList, sampleSrc⟩, ⟨"width".toList, "400".toList⟩,
          ⟨"height".toList, "300".toList⟩]) [] =
      .ok (none,
        embedOnly [⟨"src".toList, sampleFixedSrc⟩, ⟨"width".toList, "400".toList⟩,
          ⟨"height".toList, "300".toList⟩],
        ["Malformed playlist URL - http:// used instead of https://".toList,
          "Invalid playlist theme ('theme' property) - should be white".toList,
          "Invalid width value ('w' property) - should be 500".toList,
          "Malformed cover art URL ('withart' property)- http:// used instead of https://".toList]) ∧
    fixWidthAttribute [0]
        (embedOnly [⟨"src".toList, sampleSrc⟩, ⟨"width".toList, "400".toList⟩,
          ⟨"height".toList, "300".toList⟩]) ["earlier entry".toList] =
      (none,
        embedOnly [⟨"src".toList, sampleSrc⟩, ⟨"width".toList, "500".toList⟩,
          ⟨"height".toList, "300".toList⟩],
        ["earlier entry".toList, "Invalid width value - should be 500".toList]) ∧
    fixSrcAttribute [0] (embedOnly []) ["earlier entry".toList] =
      .ok (some "Required 'src' attribute of <embed> element not found".toList, embedOnly [],
        ["earlier entry".toList]) ∧
    fixWidthAttribute [0] (embedOnly []) ["earlier entry".toList] =
      (some "Required 'width' attribute of <embed> element not found".toList, embedOnly [],
        ["earlier entry".toList]) :=
  ⟨rfl, rfl,
    (fixers_leave_the_rest_alone [0] (embedOnly []) ["earlier entry".toList]).2.1 rfl,
    (fixers_leave_the_rest_alone [0] (embedOnly []) ["earlier entry".toList]).2.2.2 rfl⟩

end Checklist
